import Mathlib

/-!
Verification of the TerraFly task/flight scheduling system against its
natural-language specification.  The Lean definitions below are shallow
embeddings of the Python sources under `task_scheduler/`; numeric values are
modelled as rationals, Python `datetime`/`timedelta` values as rationals
(seconds), and Python dicts as insertion-ordered association lists.
-/

namespace TerraFly

/-- A latitude/longitude pair, as the 2-tuples used throughout the source. -/
abbrev Point2 : Type := ℚ × ℚ

/-- A latitude/longitude/altitude triple, as in `FlightPath.waypoints`. -/
abbrev Point3 : Type := ℚ × ℚ × ℚ

/-- Lookup in a Python dict modelled as an association list
(`d[k]` / `k in d`): the first binding of the key, if any. -/
def dictLookup {α : Type} (l : List (String × α)) (k : String) : Option α :=
  (l.find? (fun e => decide (e.1 = k))).map (·.2)

/-- Python dict assignment `d[k] = v`: replaces the binding of an existing
key in place (keeping its position), otherwise appends a new binding.
States built by the model always have distinct keys, so mapping over all
bindings of `k` coincides with replacing the unique one. -/
def dictSet {α : Type} (l : List (String × α)) (k : String) (v : α) : List (String × α) :=
  if l.any (fun e => decide (e.1 = k)) then
    l.map (fun e => if e.1 = k then (k, v) else e)
  else
    l ++ [(k, v)]

/-- Python `d.values()` in insertion order. -/
def dictValues {α : Type} (l : List (String × α)) : List α :=
  l.map (·.2)

/-- `FlightPath.status` in `flight_scheduler.py`:
`'scheduled' | 'active' | 'completed' | 'aborted'`. -/
inductive FlightStatus where
  | scheduled
  | active
  | completed
  | aborted
deriving DecidableEq

/-- The `FlightPath` dataclass of `flight_scheduler.py`.  Times are seconds
(`start_time : datetime`, `estimated_duration : timedelta` both become `ℚ`). -/
structure FlightPath where
  drone_id : String
  waypoints : List Point3
  start_time : ℚ
  estimated_duration : ℚ
  priority : ℤ
  status : FlightStatus
deriving DecidableEq

/-- `StaticObstacle` from `ground_control/environment_init.py`: `position`
is an `(x, y, z)` triple, with `radius` and `height`. -/
structure StaticObstacle where
  position : Point3
  radius : ℚ
  height : ℚ
deriving DecidableEq

/-- The environment a `FlightScheduler` runs in: the static obstacles of the
`EnvironmentManager`, together with the 3D haversine distance
`FlightScheduler.calculate_distance`.  The haversine formula uses `sin`,
`cos` and `atan2`, which have no exact rational form, so the distance is a
parameter of the model; every general theorem below holds for all values of
this parameter, and concrete instances pick a simple rational stand-in. -/
structure FlightEnv where
  obstacles : List StaticObstacle
  dist3 : Point3 → Point3 → ℚ

/-- `self.min_separation = 0.0001` (degrees of latitude/longitude). -/
def min_separation : ℚ := 1 / 10000

/-- `self.vertical_separation = 10` (metres). -/
def vertical_separation : ℚ := 10

/-- `self.altitude_levels = list(range(30, 121, 10))`. -/
def altitude_levels : List ℚ := [30, 40, 50, 60, 70, 80, 90, 100, 110, 120]

/-- `self.speed = 10` (metres per second). -/
def flight_speed : ℚ := 10

/-- `self.safety_margin = 5` (metres above buildings). -/
def safety_margin : ℚ := 5

/-- Sum of `d` over consecutive waypoint pairs, as in the loop of
`calculate_duration`. -/
def pairDistSum (d : Point3 → Point3 → ℚ) : List Point3 → ℚ
  | [] => 0
  | [_] => 0
  | a :: b :: rest => d a b + pairDistSum d (b :: rest)

/-- `FlightScheduler.calculate_duration`: total 3D path length divided by
`self.speed`, in seconds. -/
def calculate_duration (env : FlightEnv) (waypoints : List Point3) : ℚ :=
  pairDistSum env.dist3 waypoints / flight_speed

/-- `FlightScheduler.check_point_conflict`: no conflict when either
latitude or longitude differs by more than `min_separation` (degrees), or
the altitudes differ by at least `vertical_separation`. -/
def check_point_conflict (p1 p2 : Point3) : Bool :=
  if |p1.1 - p2.1| > min_separation ∨ |p1.2.1 - p2.2.1| > min_separation then
    false
  else if |p1.2.2 - p2.2.2| ≥ vertical_separation then
    false
  else
    true

/-- `FlightScheduler.check_path_conflict`.  Only `completed` paths are
exempt; the `time_window` argument is accepted and ignored, exactly as in
the source.  Time overlap and the pairwise waypoint check follow the code
line by line. -/
def check_path_conflict (path1 path2 : FlightPath) (time_window : ℚ) : Bool :=
  if path1.status = .completed ∨ path2.status = .completed then
    false
  else if path1.start_time + path1.estimated_duration < path2.start_time ∨
      path2.start_time + path2.estimated_duration < path1.start_time then
    false
  else
    path1.waypoints.any fun wp1 => path2.waypoints.any fun wp2 =>
      check_point_conflict wp1 wp2

/-- The source's `sqrt(dx*dx + dy*dy) <= radius`, in exact arithmetic:
since the square root is nonnegative and squaring is monotone on
nonnegative rationals, the comparison is equivalent to
`0 ≤ radius ∧ dx² + dy² ≤ radius²`. -/
def withinRadius (dx dy r : ℚ) : Bool :=
  decide (0 ≤ r ∧ dx ^ 2 + dy ^ 2 ≤ r ^ 2)

/-- `FlightScheduler.get_max_building_height`: fold over the static
obstacles, taking `position[2] + height` of every obstacle whose centre is
within `radius` of the point, starting from `0`. -/
def get_max_building_height (env : FlightEnv) (lat lon : ℚ) : ℚ :=
  env.obstacles.foldl
    (fun max_height ob =>
      if withinRadius (lat - ob.position.1) (lon - ob.position.2.1) ob.radius then
        max max_height (ob.position.2.2 + ob.height)
      else
        max_height)
    0

/-- `FlightScheduler.check_building_clearance`. -/
def check_building_clearance (env : FlightEnv) (wp : Point3) : Bool :=
  decide (wp.2.2 ≥ get_max_building_height env wp.1 wp.2.1 + safety_margin)

/-- The first loop of `find_safe_altitude`: the largest building height
under any waypoint of the route, starting from `0`. -/
def routeMaxBuildingHeight (env : FlightEnv) (waypoints : List Point2) : ℚ :=
  waypoints.foldl
    (fun mh wp => max mh (get_max_building_height env wp.1 wp.2)) 0

/-- The test path built inside `find_safe_altitude` for a candidate
altitude: `drone_id='test'`, all waypoints lifted to `alt`, duration from
`calculate_duration`, priority `0`, default status `scheduled`. -/
def testFlightPath (env : FlightEnv) (waypoints : List Point2) (alt t : ℚ) : FlightPath :=
  { drone_id := "test"
    waypoints := waypoints.map (fun wp => (wp.1, wp.2, alt))
    start_time := t
    estimated_duration := calculate_duration env (waypoints.map (fun wp => (wp.1, wp.2, alt)))
    priority := 0
    status := .scheduled }

/-- The inner conflict loop of `find_safe_altitude`: whether the test path
at altitude `alt` conflicts with any existing flight path (the
`timedelta(minutes=5)` window argument is passed along, and ignored by
`check_path_conflict`). -/
def hasConflictAtLevel (env : FlightEnv) (paths : List FlightPath)
    (waypoints : List Point2) (t alt : ℚ) : Bool :=
  paths.any fun existing =>
    check_path_conflict (testFlightPath env waypoints alt t) existing (5 * 60)

/-- `FlightScheduler.find_safe_altitude`: the first altitude level at least
`max building height + safety_margin` (the levels are listed in ascending
order) for which the test path conflicts with no existing path; `none`
when there is no such level. -/
def find_safe_altitude (env : FlightEnv) (paths : List FlightPath)
    (waypoints : List Point2) (start_time : ℚ) : Option ℚ :=
  let min_safe_alt := routeMaxBuildingHeight env waypoints + safety_margin
  (altitude_levels.filter (fun alt => decide (alt ≥ min_safe_alt))).find?
    (fun alt => ! hasConflictAtLevel env paths waypoints start_time alt)

/-- Consecutive pairs of a list, as the segment loop of
`check_path_building_safety`. -/
def consecutivePairs {α : Type} : List α → List (α × α)
  | [] => []
  | [_] => []
  | a :: b :: rest => (a, b) :: consecutivePairs (b :: rest)

/-- The `steps = 10` linear-interpolation samples of one path segment in
`check_path_building_safety` (`t = step / steps` for `step = 0..10`). -/
def samplePoints (a b : Point3) : List Point3 :=
  (List.range 11).map fun step =>
    let t : ℚ := (step : ℚ) / 10
    (a.1 + (b.1 - a.1) * t,
     a.2.1 + (b.2.1 - a.2.1) * t,
     a.2.2 + (b.2.2 - a.2.2) * t)

/-- `FlightScheduler.check_path_building_safety`. -/
def check_path_building_safety (env : FlightEnv) (waypoints : List Point3) : Bool :=
  (consecutivePairs waypoints).all fun seg =>
    (samplePoints seg.1 seg.2).all (check_building_clearance env)

/-- `FlightScheduler.schedule_flight`.  The scheduler state is the
`self.flight_paths` dict keyed by drone id.  On success the new path is
stored with `self.flight_paths[drone_id] = flight_path`, replacing any
previous path of the same drone. -/
def schedule_flight (env : FlightEnv) (paths : List (String × FlightPath))
    (drone_id : String) (waypoints : List Point2) (start_time : ℚ)
    (priority : ℤ) : Bool × List (String × FlightPath) :=
  match find_safe_altitude env (dictValues paths) waypoints start_time with
  | none => (false, paths)
  | some safe_alt =>
    let waypoints_3d := waypoints.map (fun wp => (wp.1, wp.2, safe_alt))
    if ! check_path_building_safety env waypoints_3d then
      (false, paths)
    else
      let flight_path : FlightPath :=
        { drone_id := drone_id
          waypoints := waypoints_3d
          start_time := start_time
          estimated_duration := calculate_duration env waypoints_3d
          priority := priority
          status := .scheduled }
      (true, dictSet paths drone_id flight_path)

/-- `FlightScheduler.update_flight_status`: sets the status of the drone's
path when present, otherwise does nothing. -/
def update_flight_status (paths : List (String × FlightPath))
    (drone_id : String) (status : FlightStatus) : List (String × FlightPath) :=
  paths.map fun e =>
    if e.1 = drone_id then (e.1, { e.2 with status := status }) else e

end TerraFly

/-! ### Concrete instances used by witnesses and counterexamples -/

namespace TerraFly

/-- A simple rational stand-in for the haversine-based 3D distance: it
shares with the real `calculate_distance` the only properties the concrete
scenarios rely on (the scenarios below use single-waypoint routes, whose
durations are `0` for every distance function, exactly as in the source
where the segment loop is empty). -/
def flatDist3 : Point3 → Point3 → ℚ := fun _ _ => 0

/-- An environment with no static obstacles. -/
def envNoObs : FlightEnv := { obstacles := [], dist3 := flatDist3 }

/-- An environment with one obstacle of top height `47`, so the minimum
safe altitude is `52` and the first admissible ladder level is `60`. -/
def envObs47 : FlightEnv :=
  { obstacles := [{ position := (0, 0, 0), radius := 1, height := 47 }], dist3 := flatDist3 }

/-- An existing scheduled route of drone `D1`: one waypoint at the origin,
altitude `30`, starting at time `0` with duration `0`. -/
def fpD1at30 : FlightPath :=
  { drone_id := "D1", waypoints := [(0, 0, 30)], start_time := 0,
    estimated_duration := 0, priority := 0, status := .scheduled }

/-- The same route after `update_flight_status(..., 'aborted')`. -/
def fpAborted30 : FlightPath := { fpD1at30 with status := .aborted }

/-- The route `schedule_flight` accepts for drone `D2` two ten-thousandths
of a degree (about 22 metres) north of `fpD1at30`. -/
def fpD2at30 : FlightPath :=
  { drone_id := "D2", waypoints := [(1/5000, 0, 30)], start_time := 0,
    estimated_duration := 0, priority := 0, status := .scheduled }

/-- Modelled from the spec: the spec states the separation invariant with a
horizontal distance in metres ("horizontal distance ≥ 50m").  This is that
metric, squared to stay rational, using the source's own flat conversion of
111000 metres per degree (`map_manager.py`, `lat_to_meters`), evaluated at
the equator where the longitude factor `cos(lat)` is `1`. -/
def specHorizontalSqMeters (a b : Point3) : ℚ :=
  (111000 * (a.1 - b.1)) ^ 2 + (111000 * (a.2.1 - b.2.1)) ^ 2

/-- The route `schedule_flight` stores for `D1` in the `envObs47`
environment: first ladder level above the obstacle plus margin is `60`. -/
def fpD1at60 : FlightPath :=
  { drone_id := "D1", waypoints := [(0, 0, 60)], start_time := 0,
    estimated_duration := 0, priority := 0, status := .scheduled }

/-- The route stored for `D2` when the origin slot at altitude `30` is
taken: same ground point, next ladder level `40`. -/
def fpD2at40 : FlightPath :=
  { drone_id := "D2", waypoints := [(0, 0, 40)], start_time := 0,
    estimated_duration := 0, priority := 0, status := .scheduled }

/-- The replacement route stored for `D1` when `D1` re-schedules over its
own existing route at `30`: the old route forces altitude `40`. -/
def fpD1at40 : FlightPath :=
  { drone_id := "D1", waypoints := [(0, 0, 40)], start_time := 0,
    estimated_duration := 0, priority := 0, status := .scheduled }

/-- The route stored for `D2` at the origin when no other route exists:
lowest ladder level `30`. -/
def fpD2at30origin : FlightPath :=
  { drone_id := "D2", waypoints := [(0, 0, 30)], start_time := 0,
    estimated_duration := 0, priority := 0, status := .scheduled }

end TerraFly

/-! ### The unified scheduler (`unified_scheduler.py`) -/

namespace TerraFly

/-- `VehicleType` from `delivery_scheduler.py`. -/
inductive VehicleType where
  | car
  | drone
deriving DecidableEq

/-- `TaskStatus` from `delivery_scheduler.py`. -/
inductive TaskStatus where
  | pending
  | assigned
  | pickup_reached
  | pickup_complete
  | transfer_started
  | transfer_complete
  | delivery_started
  | completed
  | failed
deriving DecidableEq

/-- `DeliveryPoint` from `delivery_scheduler.py`. -/
structure DeliveryPoint where
  id : String
  location : Point2
  type : String
deriving DecidableEq

/-- `Priority` from `unified_scheduler.py` (`LOW=0, MEDIUM=1, HIGH=2,
EMERGENCY=3`). -/
inductive Priority where
  | low
  | medium
  | high
  | emergency
deriving DecidableEq

/-- `Priority.value`. -/
def Priority.value : Priority → ℤ
  | .low => 0
  | .medium => 1
  | .high => 2
  | .emergency => 3

/-- The `Vehicle` dataclass of `unified_scheduler.py`.  `last_updated` is a
`datetime`, modelled in seconds; `maintenance_status : Dict[str, Any]` is
modelled as a string-valued dict, which is all the claims need. -/
structure Vehicle where
  id : String
  type : VehicleType
  location : Point2
  battery : ℚ
  status : String
  payload_capacity : ℚ
  current_payload : ℚ
  last_updated : ℚ
  capabilities : List String
  maintenance_status : List (String × String)
deriving DecidableEq

/-- The `Task` dataclass of `unified_scheduler.py`. -/
structure Task where
  id : String
  type : String
  priority : Priority
  start_point : DeliveryPoint
  end_point : DeliveryPoint
  intermediate_points : List DeliveryPoint
  status : TaskStatus
  assigned_vehicles : List (String × String)
  payload_weight : ℚ
  special_requirements : List String
  created_time : ℚ
  deadline : Option ℚ
  completion_time : Option ℚ
deriving DecidableEq

/-- The mutable state of a `UnifiedScheduler`: the vehicle, task and
delivery-point registries, the task queue (entries are the Python tuples
`(-priority.value, time, task_id)` of a `PriorityQueue`), and the flight
scheduler's path dict (`self.flight_scheduler.flight_paths`). -/
structure SchedState where
  vehicles : List (String × Vehicle)
  tasks : List (String × Task)
  delivery_points : List (String × DeliveryPoint)
  task_queue : List (ℤ × ℚ × String)
  flight_paths : List (String × FlightPath)
deriving DecidableEq

/-- `config['min_battery_level'] = 15.0` (`config.py`). -/
def min_battery_level : ℚ := 15

/-- `config['scheduler']['task_retry_limit'] = 3` (`config.py`, line 72).
The scheduler loop never reads this value. -/
def task_retry_limit : ℕ := 3

/-- `UnifiedScheduler._find_suitable_vehicles`: keeps, in registry
(insertion) order, the ids of vehicles that are idle, have battery not
below `min_battery_level`, can take the task's weight on top of their
current payload, and have every special requirement among their
capabilities.  The `stage` argument is accepted and unused, as in the
source. -/
def find_suitable_vehicles (vehicles : List (String × Vehicle)) (task : Task)
    (stage : String) : List String :=
  (vehicles.filter (fun e =>
    decide (e.2.status = "idle") &&
    !decide (e.2.battery < min_battery_level) &&
    !decide (e.2.current_payload + task.payload_weight > e.2.payload_capacity) &&
    task.special_requirements.all (fun req => decide (req ∈ e.2.capabilities)))).map Prod.fst

/-- `UnifiedScheduler._calculate_task_cost`.  `dist` is the inherited
`MapPlanner.calculate_distance` (haversine, kilometres), a parameter of
the model for the same reason as `FlightEnv.dist3`; `now` is
`datetime.now()` made explicit.  A lookup of an unknown id would raise
`KeyError` in Python; callers only pass ids drawn from the registry, and
the model returns `0` in that unreachable case. -/
def calculate_task_cost (dist : Point2 → Point2 → ℚ) (now : ℚ)
    (vehicles : List (String × Vehicle)) (task : Task) (vehicle_id : String)
    (stage : String) : ℚ :=
  match dictLookup vehicles vehicle_id with
  | none => 0
  | some vehicle =>
    let distance_cost := dist vehicle.location
      (if stage = "pickup" then task.start_point.location else task.end_point.location)
    let battery_cost := (100 - vehicle.battery) / 100
    let time_cost :=
      match task.deadline with
      | none => 0
      | some dl => max 0 (1 - (dl - now) / 3600)
    distance_cost + battery_cost + time_cost

/-- Python's `min(xs, key=f)` for a nonempty list: the first element whose
key is minimal (later elements replace the current best only when
strictly smaller). -/
def pythonMinBy {α : Type} (f : α → ℚ) : List α → Option α
  | [] => none
  | a :: rest => some (rest.foldl (fun best x => if f x < f best then x else best) a)

/-- One stage of `UnifiedScheduler._assign_task`: filter, pick the
minimum-cost candidate, record it in `task.assigned_vehicles[stage]` and
set the vehicle busy.  The planner / flight-scheduler calls that follow in
the source discard their results and touch no part of this state (the
drone branch would in fact raise `TypeError`: `schedule_flight` is called
with keyword arguments `start`/`goal` that its signature does not have),
so they are a no-op here. -/
def assign_stage (dist : Point2 → Point2 → ℚ) (now : ℚ)
    (vehicles : List (String × Vehicle)) (task : Task) (stage : String) :
    List (String × Vehicle) × Task :=
  match pythonMinBy (fun vid => calculate_task_cost dist now vehicles task vid stage)
      (find_suitable_vehicles vehicles task stage) with
  | none => (vehicles, task)
  | some best =>
    (vehicles.map (fun e => if e.1 = best then (e.1, { e.2 with status := "busy" }) else e),
     { task with assigned_vehicles := dictSet task.assigned_vehicles stage best })

/-- `UnifiedScheduler._assign_task`: the three stages in order, then
success iff the task's `assigned_vehicles` dict has as many entries as
there are stages. -/
def assign_task (dist : Point2 → Point2 → ℚ) (now : ℚ)
    (vehicles : List (String × Vehicle)) (task : Task) :
    List (String × Vehicle) × Task × Bool :=
  let s1 := assign_stage dist now vehicles task "pickup"
  let s2 := assign_stage dist now s1.1 s1.2 "transfer"
  let s3 := assign_stage dist now s2.1 s2.2 "delivery"
  (s3.1, s3.2, decide (s3.2.assigned_vehicles.length = 3))

/-- `a ≤ b` on Python tuples `(-priority, time, id)`, compared
lexicographically as `heapq` does. -/
def entryLe (a b : ℤ × ℚ × String) : Bool :=
  if a.1 < b.1 then true
  else if b.1 < a.1 then false
  else if a.2.1 < b.2.1 then true
  else if b.2.1 < a.2.1 then false
  else decide (a.2.2 ≤ b.2.2)

/-- The least entry of `base :: rest` under `entryLe`, keeping the
earlier of two equal entries (equal tuples are identical, so which one a
binary heap returns is immaterial). -/
def minEntry (base : ℤ × ℚ × String) : List (ℤ × ℚ × String) → ℤ × ℚ × String
  | [] => base
  | x :: rest => minEntry (if entryLe base x then base else x) rest

/-- Remove the first occurrence of `x`. -/
def removeFirst (x : ℤ × ℚ × String) : List (ℤ × ℚ × String) → List (ℤ × ℚ × String)
  | [] => []
  | y :: rest => if y = x then rest else y :: removeFirst x rest

/-- `PriorityQueue.get()`: pop the smallest tuple. -/
def popMinEntry (q : List (ℤ × ℚ × String)) :
    Option ((ℤ × ℚ × String) × List (ℤ × ℚ × String)) :=
  match q with
  | [] => none
  | a :: rest =>
    let m := minEntry a rest
    some (m, removeFirst m q)

/-- One iteration of `UnifiedScheduler._scheduler_loop`, with
`datetime.now()` explicit.  An empty queue leaves the state unchanged; an
id missing from `self.tasks` would raise `KeyError` and kill the scheduler
thread (`none`).  A pending task is run through `_assign_task` (whose
mutations of the task and of vehicle statuses persist even on failure);
on success its status becomes `assigned`, otherwise it is re-queued with
the current time.  A non-pending task is popped and dropped. -/
def scheduler_tick (dist : Point2 → Point2 → ℚ) (now : ℚ) (s : SchedState) :
    Option SchedState :=
  match popMinEntry s.task_queue with
  | none => some s
  | some (entry, rest) =>
    match dictLookup s.tasks entry.2.2 with
    | none => none
    | some task =>
      if task.status = .pending then
        let r := assign_task dist now s.vehicles task
        if r.2.2 then
          some { s with vehicles := r.1,
                        tasks := dictSet s.tasks entry.2.2 { r.2.1 with status := .assigned },
                        task_queue := rest }
        else
          some { s with vehicles := r.1,
                        tasks := dictSet s.tasks entry.2.2 r.2.1,
                        task_queue := rest ++ [(-task.priority.value, now, entry.2.2)] }
      else
        some { s with task_queue := rest }

/-- Iterate `scheduler_tick` over a list of clock readings. -/
def applyTicks (dist : Point2 → Point2 → ℚ) : List ℚ → SchedState → Option SchedState
  | [], s => some s
  | now :: rest, s => (scheduler_tick dist now s).bind (applyTicks dist rest)

/-- `UnifiedScheduler.update_vehicle_status`: unknown ids are ignored;
otherwise the vehicle's location, battery, status and payload are set from
the arguments and `last_updated` from the clock.  No other component of
the state is touched. -/
def update_vehicle_status (s : SchedState) (vehicle_id : String) (location : Point2)
    (battery : ℚ) (status : String) (current_payload : ℚ) (now : ℚ) : SchedState :=
  if (dictLookup s.vehicles vehicle_id).isSome then
    { s with vehicles := s.vehicles.map (fun e =>
        if e.1 = vehicle_id then
          (e.1, { e.2 with location := location, battery := battery, status := status,
                           current_payload := current_payload, last_updated := now })
        else e) }
  else
    s

end TerraFly

/-! ### Concrete scheduler scenarios -/

namespace TerraFly

/-- Concrete rational stand-in for the planner's haversine distance; the
scenarios below place every vehicle at the task's own start point, so the
distance component is `0` under this function exactly as under the real
haversine. -/
def taxiDist : Point2 → Point2 → ℚ :=
  fun p q => |p.1 - q.1| + |p.2 - q.2|

/-- A delivery point at the origin. -/
def dpOrigin : DeliveryPoint := { id := "P1", location := (0, 0), type := "pickup" }

/-- A delivery point used as destination. -/
def dpDest : DeliveryPoint := { id := "P2", location := (1, 1), type := "delivery" }

/-- An idle car at the origin with full battery, registered as `V2`. -/
def vehV2 : Vehicle :=
  { id := "V2", type := .car, location := (0, 0), battery := 100, status := "idle",
    payload_capacity := 20, current_payload := 0, last_updated := 0,
    capabilities := [], maintenance_status := [] }

/-- The same vehicle data registered as `V1` (lower id than `V2`). -/
def vehV1 : Vehicle := { vehV2 with id := "V1" }

/-- Registry with `V2` registered before `V1`. -/
def c3Vehicles : List (String × Vehicle) := [("V2", vehV2), ("V1", vehV1)]

/-- A task whose deadline passed one hour before the scenario's clock
reading `0`: remaining time is `-3600` seconds. -/
def c3Task : Task :=
  { id := "T1", type := "delivery", priority := .medium, start_point := dpOrigin,
    end_point := dpDest, intermediate_points := [], status := .pending,
    assigned_vehicles := [], payload_weight := 2, special_requirements := [],
    created_time := 0, deadline := some (-3600), completion_time := none }

/-- An idle vehicle whose battery is exactly `min_battery_level`. -/
def vehBoundary : Vehicle :=
  { id := "V1", type := .car, location := (0, 0), battery := 15, status := "idle",
    payload_capacity := 20, current_payload := 0, last_updated := 0,
    capabilities := [], maintenance_status := [] }

def c4Vehicles : List (String × Vehicle) := [("V1", vehBoundary)]

/-- A task with no deadline and no special requirement. -/
def c4Task : Task :=
  { id := "T1", type := "delivery", priority := .medium, start_point := dpOrigin,
    end_point := dpDest, intermediate_points := [], status := .pending,
    assigned_vehicles := [], payload_weight := 2, special_requirements := [],
    created_time := 0, deadline := none, completion_time := none }

/-- An idle vehicle with no special capabilities. -/
def c5Vehicle : Vehicle :=
  { id := "V1", type := .car, location := (0, 0), battery := 100, status := "idle",
    payload_capacity := 20, current_payload := 0, last_updated := 0,
    capabilities := [], maintenance_status := [] }

/-- A pending task requiring a capability no registered vehicle has. -/
def c5Task : Task :=
  { id := "T1", type := "delivery", priority := .medium, start_point := dpOrigin,
    end_point := dpDest, intermediate_points := [], status := .pending,
    assigned_vehicles := [], payload_weight := 2,
    special_requirements := ["thermal_imaging"], created_time := 0,
    deadline := none, completion_time := none }

/-- The scheduler state at clock `t`: the unassignable task `T1` queued
with priority `medium` (queue entry `(-1, t, "T1")`). -/
def c5StateAt (t : ℚ) : SchedState :=
  { vehicles := [("V1", c5Vehicle)], tasks := [("T1", c5Task)],
    delivery_points := [("P1", dpOrigin), ("P2", dpDest)],
    task_queue := [(-1, t, "T1")], flight_paths := [] }

/-- The initial state for the retry scenario (task created at time `0`). -/
def c5State : SchedState := c5StateAt 0

/-- A one-vehicle state for the idempotence scenario. -/
def c9State : SchedState :=
  { vehicles := [("V1", { id := "V1", type := .car, location := (0, 0), battery := 50,
                          status := "idle", payload_capacity := 20, current_payload := 0,
                          last_updated := 5, capabilities := [], maintenance_status := [] })],
    tasks := [], delivery_points := [], task_queue := [], flight_paths := [] }

end TerraFly

/-! ### Persistence: `save_state` / `load_state` -/

namespace TerraFly

/-- A dynamically-typed Python value, as held in the `__dict__` of the
entity dataclasses that `save_state` serializes with `vars(...)`.
`datetime` carries its clock value in seconds; `enumval` carries the enum
class and member names (e.g. `VehicleType.CAR`); `obj` is a non-JSON
dataclass instance (such as the `DeliveryPoint` stored in
`Task.start_point`) with its class name and field dict. -/
inductive PyVal where
  | pynone
  | pybool (b : Bool)
  | num (q : ℚ)
  | str (s : String)
  | tup (items : List PyVal)
  | pylist (items : List PyVal)
  | pydict (entries : List (String × PyVal))
  | datetime (seconds : ℚ)
  | enumval (cls member : String)
  | obj (cls : String) (fields : List (String × PyVal))

/-- The text `str(datetime)` produces.  Only the fact that the result is a
string matters to the claims, so the model does not reproduce the
timestamp formatting. -/
def pyStrOfDatetime (seconds : ℚ) : String := "datetime"

/-- `str(enum_member)` is `"ClassName.MEMBER"`. -/
def pyStrOfEnum (cls member : String) : String := cls ++ "." ++ member

/-- `str(dataclass_instance)`, the repr text; as with datetimes, only its
string-ness matters. -/
def pyStrOfObj (cls : String) : String := cls

mutual

/-- The effect of `json.dump(..., default=str)` followed by `json.load`
on one value: numbers, strings, booleans and `None` survive; tuples are
silently written as JSON arrays and read back as lists; lists and dicts
recurse; `datetime`s, enum members and nested dataclasses are not JSON
serializable, so `default=str` writes their `str()` text, which
`load_state` keeps as a plain string (it parses nothing back). -/
def jsonify : PyVal → PyVal
  | .pynone => .pynone
  | .pybool b => .pybool b
  | .num q => .num q
  | .str s => .str s
  | .tup items => .pylist (jsonifyList items)
  | .pylist items => .pylist (jsonifyList items)
  | .pydict entries => .pydict (jsonifyEntries entries)
  | .datetime t => .str (pyStrOfDatetime t)
  | .enumval cls member => .str (pyStrOfEnum cls member)
  | .obj cls _ => .str (pyStrOfObj cls)

def jsonifyList : List PyVal → List PyVal
  | [] => []
  | v :: rest => jsonify v :: jsonifyList rest

def jsonifyEntries : List (String × PyVal) → List (String × PyVal)
  | [] => []
  | e :: rest => (e.1, jsonify e.2) :: jsonifyEntries rest

end

/-- An entity's `__dict__`. -/
abbrev PyDict := List (String × PyVal)

/-- `save_state` followed by `load_state`, restricted to one registry:
the state dict maps each entity id to `vars(entity)`; `json.dump` encodes
every field value as above; `load_state` rebuilds each entity with
`Vehicle(**vdata)` / `Task(**tdata)` / `DeliveryPoint(**pdata)`, which
installs the decoded JSON values as the new field values verbatim. -/
def save_load_registry (reg : List (String × PyDict)) : List (String × PyDict) :=
  reg.map (fun e => (e.1, jsonifyEntries e.2))

/-- The full round trip over the three registries of
`UnifiedScheduler.save_state` / `load_state`. -/
def save_load_state (vehicles tasks delivery_points : List (String × PyDict)) :
    List (String × PyDict) × List (String × PyDict) × List (String × PyDict) :=
  (save_load_registry vehicles, save_load_registry tasks,
   save_load_registry delivery_points)

/-- `vars(v)` of a concrete registered car (scenario A's `CAR_1`). -/
def car1Dyn : PyDict :=
  [("id", .str "CAR_1"),
   ("type", .enumval "VehicleType" "CAR"),
   ("location", .tup [.num 22, .num 113]),
   ("battery", .num 80),
   ("status", .str "idle"),
   ("payload_capacity", .num 20),
   ("current_payload", .num 0),
   ("last_updated", .datetime 0),
   ("capabilities", .pylist [.str "ground_delivery"]),
   ("maintenance_status", .pydict [])]

/-- `vars(p)` of a delivery point. -/
def point1Dyn : PyDict :=
  [("id", .str "P1"),
   ("location", .tup [.num 22, .num 113]),
   ("type", .str "pickup")]

/-- `vars(t)` of a task referencing that point and an enum priority. -/
def task1Dyn : PyDict :=
  [("id", .str "T1"),
   ("type", .str "delivery"),
   ("priority", .enumval "Priority" "MEDIUM"),
   ("start_point", .obj "DeliveryPoint" point1Dyn),
   ("end_point", .obj "DeliveryPoint" point1Dyn),
   ("intermediate_points", .pylist []),
   ("status", .enumval "TaskStatus" "PENDING"),
   ("assigned_vehicles", .pydict []),
   ("payload_weight", .num 2),
   ("special_requirements", .pylist []),
   ("created_time", .datetime 0),
   ("deadline", .pynone),
   ("completion_time", .pynone)]

end TerraFly

/-! ### Road-path planning (`map_manager.py`): graph build, snapping, Dijkstra -/

namespace TerraFly

/-- A graph node: a `(lat, lon)` tuple. -/
abbrev Node : Type := ℚ × ℚ

/-- One entry of `road_network['roads']`. -/
structure Road where
  start_lat : ℚ
  start_lon : ℚ
  end_lat : ℚ
  end_lon : ℚ
  speed_limit : Option ℚ
deriving DecidableEq

/-- Node-keyed dict lookup (same model as the string-keyed `dictLookup`). -/
def ndictLookup {α : Type} (l : List (Node × α)) (k : Node) : Option α :=
  (l.find? (fun e => decide (e.1 = k))).map (·.2)

/-- Node-keyed dict assignment. -/
def ndictSet {α : Type} (l : List (Node × α)) (k : Node) (v : α) : List (Node × α) :=
  if l.any (fun e => decide (e.1 = k)) then
    l.map (fun e => if e.1 = k then (k, v) else e)
  else
    l ++ [(k, v)]

/-- The adjacency dict `graph`: node to list of
`(neighbor, weight, speed_limit)`. -/
abbrev Graph : Type := List (Node × List (Node × ℚ × ℚ))

/-- The node set (`graph.keys()`) in insertion order. -/
def graphNodes (g : Graph) : List Node :=
  g.map Prod.fst

/-- `graph[u]` for the relaxation loop.  A missing key would raise
`KeyError` in the source; every graph built by `_plan_road_path` holds
both endpoints of every road as keys, so every pushed node is a key and
the default is never taken there (the Dijkstra loop below still
distinguishes the missing-key case explicitly). -/
def adjGet (g : Graph) (u : Node) : List (Node × ℚ × ℚ) :=
  (ndictLookup g u).getD []

/-- `MapManager._calculate_edge_weight`: estimated traversal time,
distance divided by the speed limit.  `geoDist` is the haversine
`_calculate_distance`, a parameter of the model as before. -/
def calculate_edge_weight (geoDist : Node → Node → ℚ) (node1 node2 : Node)
    (speed_limit : ℚ) : ℚ :=
  geoDist node1 node2 / speed_limit

/-- `graph[n].append(entry)` (the key is present when called). -/
def graphAppend (g : Graph) (n : Node) (entry : Node × ℚ × ℚ) : Graph :=
  g.map (fun e => if e.1 = n then (e.1, e.2 ++ [entry]) else e)

/-- `if n not in graph: graph[n] = []`. -/
def graphEnsure (g : Graph) (n : Node) : Graph :=
  if g.any (fun e => decide (e.1 = n)) then g else g ++ [(n, [])]

/-- The graph-building loop of `_plan_road_path` (lines 308-324): for each
road, ensure both endpoint nodes exist, compute the weight from
`_calculate_edge_weight` with the road's speed limit (defaulting to
`path_params['speed']`), and append the edge in both directions. -/
def buildGraphStep (geoDist : Node → Node → ℚ) (default_speed : ℚ)
    (g : Graph) (road : Road) : Graph :=
  let start_node : Node := (road.start_lat, road.start_lon)
  let end_node : Node := (road.end_lat, road.end_lon)
  let speed_limit := road.speed_limit.getD default_speed
  let g1 := graphEnsure g start_node
  let g2 := graphEnsure g1 end_node
  let weight := calculate_edge_weight geoDist start_node end_node speed_limit
  let g3 := graphAppend g2 start_node (end_node, weight, speed_limit)
  graphAppend g3 end_node (start_node, weight, speed_limit)

def buildGraph (geoDist : Node → Node → ℚ) (default_speed : ℚ)
    (roads : List Road) : Graph :=
  roads.foldl (buildGraphStep geoDist default_speed) []

/-- `MapManager._find_nearest_node`: the first node of the graph at
strictly minimal `_calculate_distance` from the point — Python's running
minimum starting from infinity, which is exactly `pythonMinBy`. -/
def find_nearest_node (geoDist : Node → Node → ℚ) (point : Node) (g : Graph) :
    Option Node :=
  pythonMinBy (fun n => geoDist point n) (graphNodes g)

/-- `heapq` order on `(distance, node)` tuples: lexicographic. -/
def pqLe (a b : ℚ × Node) : Bool :=
  if a.1 < b.1 then true
  else if b.1 < a.1 then false
  else if a.2.1 < b.2.1 then true
  else if b.2.1 < a.2.1 then false
  else decide (a.2.2 ≤ b.2.2)

/-- `heapq.heappop`: remove and return the smallest tuple.  The remainder
is built structurally so that it is one element shorter. -/
def extractMin : List (ℚ × Node) → Option ((ℚ × Node) × List (ℚ × Node))
  | [] => none
  | [a] => some (a, [])
  | a :: b :: rest =>
    match extractMin (b :: rest) with
    | none => some (a, b :: rest)
    | some (m, rest') => if pqLe a m then some (a, b :: rest) else some (m, a :: rest')

/-- `inf` comparison `distance < distances[neighbor]`. -/
def ltOpt (a : ℚ) : Option ℚ → Bool
  | none => true
  | some b => decide (a < b)

/-- The mutable per-run maps: `distances` (`none` is `inf`) and
`predecessors`. -/
abbrev DistMap : Type := List (Node × Option ℚ)
abbrev PredMap : Type := List (Node × Option Node)

/-- `distances[v]` (all graph nodes are initialized, so the default is
never taken on the graphs the planner builds). -/
def distGet (dist : DistMap) (v : Node) : Option ℚ :=
  (ndictLookup dist v).getD none

/-- `predecessors[v]`. -/
def predGet (preds : PredMap) (v : Node) : Option Node :=
  (ndictLookup preds v).getD none

/-- One neighbor of the relaxation loop: skip visited neighbors, compare
`current_distance + weight` against `distances[neighbor]`, and on
improvement update distance and predecessor and push the new entry. -/
def relaxStep (visited : List Node) (u : Node) (du : ℚ)
    (st : DistMap × PredMap × List (ℚ × Node)) (entry : Node × ℚ × ℚ) :
    DistMap × PredMap × List (ℚ × Node) :=
  if entry.1 ∈ visited then st
  else
    let nd := du + entry.2.1
    if ltOpt nd (distGet st.1 entry.1) then
      (ndictSet st.1 entry.1 (some nd),
       ndictSet st.2.1 entry.1 (some u),
       st.2.2 ++ [(nd, entry.1)])
    else st

/-- The whole `for neighbor, weight, _ in graph[current_node]` loop. -/
def relaxAll (visited : List Node) (u : Node) (du : ℚ)
    (dist : DistMap) (preds : PredMap) (adj : List (Node × ℚ × ℚ)) :
    DistMap × PredMap × List (ℚ × Node) :=
  adj.foldl (relaxStep visited u du) (dist, preds, [])

/-- The `while pq:` loop of `_dijkstra`.  `none` models the `KeyError`
raised when a popped node is not a graph key (unreachable on the graphs
`_plan_road_path` builds).  Terminates because each iteration either
visits a new graph node or shortens the queue. -/
def dijkstraLoop (g : Graph) (endNode : Node) (dist : DistMap) (preds : PredMap)
    (visited : List Node) (pq : List (ℚ × Node)) : Option (DistMap × PredMap) :=
  match hpop : extractMin pq with
  | none => some (dist, preds)
  | some (m, pq') =>
    if m.2 = endNode then some (dist, preds)
    else if hv : m.2 ∈ visited then dijkstraLoop g endNode dist preds visited pq'
    else
      match hadj : ndictLookup g m.2 with
      | none => none
      | some adj =>
        let st := relaxAll (m.2 :: visited) m.2 m.1 dist preds adj
        dijkstraLoop g endNode st.1 st.2.1 (m.2 :: visited) (pq' ++ st.2.2)
  termination_by (((graphNodes g).filter (fun v => !decide (v ∈ visited))).length, pq.length)
  decreasing_by
  · have key : ∀ (l : List (ℚ × Node)) m rest, extractMin l = some (m, rest) →
        rest.length < l.length := by
      intro l
      induction l with
      | nil => intro m rest h; simp [extractMin] at h
      | cons a tail ih =>
        intro m rest h
        cases tail with
        | nil =>
          simp only [extractMin, Option.some.injEq, Prod.mk.injEq] at h
          rw [← h.2]
          simp
        | cons b rest2 =>
          simp only [extractMin] at h
          cases hrec : extractMin (b :: rest2) with
          | none => simp [hrec] at h; rw [← h.2]; simp
          | some p =>
            rw [hrec] at h
            by_cases hle : pqLe a p.1
            · simp only [hle, if_true, Option.some.injEq, Prod.mk.injEq] at h
              rw [← h.2]
              simp
            · simp only [hle, Bool.false_eq_true, if_false, Option.some.injEq,
                Prod.mk.injEq] at h
              have hlen := ih p.1 p.2 hrec
              rw [← h.2]
              simpa using hlen
    apply Prod.Lex.right
    exact key pq m pq' hpop
  · have hmem : m.2 ∈ graphNodes g := by
      have hfind := hadj
      unfold ndictLookup at hfind
      cases hf : g.find? (fun e => decide (e.1 = m.2)) with
      | none => rw [hf] at hfind; simp at hfind
      | some e =>
        have hp := List.find?_some hf
        have hin := List.mem_of_find?_eq_some hf
        have : e.1 = m.2 := by simpa using hp
        rw [← this]
        exact List.mem_map.mpr ⟨e, hin, rfl⟩
    apply Prod.Lex.left
    have key : ∀ (l : List Node),
        (l.filter (fun v => !decide (v ∈ m.2 :: visited))).length ≤
          (l.filter (fun v => !decide (v ∈ visited))).length := by
      intro l
      induction l with
      | nil => simp
      | cons x tail ih =>
        by_cases hx : x ∈ m.2 :: visited
        · have hx2 : (!decide (x ∈ m.2 :: visited)) = false := by simp [hx]
          by_cases hx3 : x ∈ visited
          · have : (!decide (x ∈ visited)) = false := by simp [hx3]
            simp only [List.filter_cons, hx2, this, Bool.false_eq_true, if_false]
            exact ih
          · have : (!decide (x ∈ visited)) = true := by simp [hx3]
            simp only [List.filter_cons, hx2, this, Bool.false_eq_true, if_false, if_true]
            exact Nat.le_succ_of_le ih
        · have hx3 : x ∉ visited := fun hc => hx (List.mem_cons.mpr (Or.inr hc))
          have h1 : (!decide (x ∈ m.2 :: visited)) = true := by simp [hx]
          have h2 : (!decide (x ∈ visited)) = true := by simp [hx3]
          simp only [List.filter_cons, h1, h2, if_true, List.length_cons]
          exact Nat.succ_le_succ ih
    have strict : ((graphNodes g).filter (fun v => !decide (v ∈ m.2 :: visited))).length <
        ((graphNodes g).filter (fun v => !decide (v ∈ visited))).length := by
      obtain ⟨l1, l2, heq⟩ := List.append_of_mem hmem
      have hk1 := key l1
      have hk2 := key l2
      rw [heq]
      simp only [List.filter_append, List.length_append, List.filter_cons]
      have hm1 : (!decide (m.2 ∈ m.2 :: visited)) = false := by simp
      have hm2 : (!decide (m.2 ∈ visited)) = true := by simp [hv]
      simp only [hm1, hm2, Bool.false_eq_true, if_false, if_true, List.length_cons]
      omega
    exact strict

end TerraFly

namespace TerraFly

/-- The path-reconstruction loop `while current_node is not None` of
`_dijkstra`, producing `[end, ..., start]`.  The source loop has no
bound; the algorithm's predecessor chains are acyclic and pass through
each graph node at most once, so `|nodes| + 1` steps always suffice (see
the theorems below) and the `none` fuel case is unreachable there. -/
def buildChain (preds : PredMap) : ℕ → Node → Option (List Node)
  | 0, _ => none
  | fuel + 1, cur =>
    match predGet preds cur with
    | none => some [cur]
    | some p => (buildChain preds fuel p).map (fun rest => cur :: rest)

/-- `MapManager._dijkstra`: `None` when either endpoint is not a graph
key, when the loop dies on a `KeyError`, or when `predecessors[end]` is
`None` after the loop; otherwise the reversed predecessor chain. -/
def dijkstra (g : Graph) (startNode endNode : Node) : Option (List Node) :=
  if startNode ∈ graphNodes g ∧ endNode ∈ graphNodes g then
    match dijkstraLoop g endNode
        (g.map (fun e => (e.1, if e.1 = startNode then some (0 : ℚ) else none)))
        (g.map (fun e => (e.1, (none : Option Node))))
        [] [(0, startNode)] with
    | none => none
    | some dp =>
      match predGet dp.2 endNode with
      | none => none
      | some _ =>
        match buildChain dp.2 ((graphNodes g).length + 1) endNode with
        | none => none
        | some chain => some chain.reverse
  else none

/-- The node-level core of `MapManager._plan_road_path`: build the road
graph, snap both endpoints to their nearest graph nodes, and run
Dijkstra.  (The source then decorates the node sequence with the raw
start/end points, altitudes and per-segment speed limits, which the
claims do not concern; an empty road network makes `_find_nearest_node`
return `None`, as does the source's early `if not road_network` check.) -/
def plan_road_path_nodes (geoDist : Node → Node → ℚ) (default_speed : ℚ)
    (roads : List Road) (startP endP : Node) : Option (List Node) :=
  match find_nearest_node geoDist startP (buildGraph geoDist default_speed roads),
      find_nearest_node geoDist endP (buildGraph geoDist default_speed roads) with
  | some s, some e => dijkstra (buildGraph geoDist default_speed roads) s e
  | some _, none => none
  | none, _ => none

/-- A directed edge of weight `w` in the adjacency dict. -/
def EdgeTo (g : Graph) (u v : Node) (w : ℚ) : Prop :=
  ∃ sl, (v, w, sl) ∈ adjGet g u

/-- A walk in the graph from `s`, with its total weight. -/
inductive Reach (g : Graph) (s : Node) : Node → ℚ → Prop where
  | refl : Reach g s s 0
  | step {u v : Node} {w c : ℚ} : Reach g s u c → EdgeTo g u v w → Reach g s v (c + w)

/-- A walk all of whose non-final nodes lie in `allowed`. -/
inductive ReachVia (g : Graph) (allowed : List Node) (s : Node) : Node → ℚ → Prop where
  | refl : ReachVia g allowed s s 0
  | step {u v : Node} {w c : ℚ} : ReachVia g allowed s u c → u ∈ allowed →
      EdgeTo g u v w → ReachVia g allowed s v (c + w)

/-- A node sequence is a walk of the given total weight. -/
inductive SeqCost (g : Graph) : List Node → ℚ → Prop where
  | single (u : Node) : SeqCost g [u] 0
  | cons {u v : Node} {rest : List Node} {w c : ℚ} :
      EdgeTo g u v w → SeqCost g (v :: rest) c → SeqCost g (u :: v :: rest) (w + c)

/-- Concrete rational stand-in for the haversine in the road scenarios
(squared flat distance; it ranks the concrete nodes exactly as the
haversine does). -/
def geoDistFlat : Node → Node → ℚ :=
  fun p q => (p.1 - q.1) ^ 2 + (p.2 - q.2) ^ 2

/-- One road from `A = (0,0)` to `B = (0,1)` with speed limit 5. -/
def roadAB : Road :=
  { start_lat := 0, start_lon := 0, end_lat := 0, end_lon := 1, speed_limit := some 5 }

/-- The graph built from that single road: two connected nodes. -/
def c7Graph : Graph := buildGraph geoDistFlat 5 [roadAB]

end TerraFly

namespace TerraFly

/-- All edge weights of the graph are nonnegative (true of every graph the
planner builds: haversine distances divided by positive speed limits). -/
def NonnegGraph (g : Graph) : Prop :=
  ∀ u : Node, ∀ entry ∈ adjGet g u, 0 ≤ entry.2.1

/-- Every adjacency target is itself a graph key (true of every graph the
planner builds: both endpoints of each road are inserted as keys). -/
def ClosedGraph (g : Graph) : Prop :=
  ∀ u : Node, ∀ entry ∈ adjGet g u, entry.1 ∈ graphNodes g

/-- The loop invariant of `_dijkstra`'s main `while` loop. -/
structure DijkInv (g : Graph) (startNode : Node) (dist : DistMap) (preds : PredMap)
    (visited : List Node) (pq : List (ℚ × Node)) : Prop where
  dist_sound : ∀ v d, distGet dist v = some d → Reach g startNode v d
  pq_sound : ∀ e ∈ pq, Reach g startNode e.2 e.1
  pq_dom : ∀ e ∈ pq, ∃ d', distGet dist e.2 = some d' ∧ d' ≤ e.1
  dist_cover : ∀ v d, distGet dist v = some d → v ∈ visited ∨ (d, v) ∈ pq
  visited_min : ∀ v ∈ visited, ∃ d, distGet dist v = some d ∧
    ∀ c, Reach g startNode v c → d ≤ c
  visited_relaxed : ∀ u ∈ visited, ∀ entry ∈ adjGet g u,
    ∃ du dv, distGet dist u = some du ∧ distGet dist entry.1 = some dv ∧
      dv ≤ du + entry.2.1
  pred_sound : ∀ v u, predGet preds v = some u → u ∈ visited ∧
    ∃ w du, EdgeTo g u v w ∧ distGet dist u = some du ∧
      distGet dist v = some (du + w)
  start_zero : distGet dist startNode = some 0
  pred_cover : ∀ v d, distGet dist v = some d →
    v = startNode ∨ ∃ u, predGet preds v = some u
  pred_order : ∀ v u, predGet preds v = some u →
    v ∉ visited ∨ ∃ l1 l2, visited = l1 ++ v :: l2 ∧ u ∈ l2
  visited_nodup : visited.Nodup
  visited_nodes : ∀ v ∈ visited, v ∈ graphNodes g
  pq_nodes : ∀ e ∈ pq, e.2 ∈ graphNodes g
  via_dom : ∀ v c, ReachVia g visited startNode v c →
    ∃ d', distGet dist v = some d' ∧ d' ≤ c

/-- The facts `dijkstraLoop` guarantees on exit, for the end node and for
path reconstruction. -/
structure DijkPost (g : Graph) (startNode endNode : Node) (dist : DistMap)
    (preds : PredMap) (visited : List Node) : Prop where
  dist_sound : ∀ v d, distGet dist v = some d → Reach g startNode v d
  pred_sound : ∀ v u, predGet preds v = some u → u ∈ visited ∧
    ∃ w du, EdgeTo g u v w ∧ distGet dist u = some du ∧
      distGet dist v = some (du + w)
  pred_cover : ∀ v d, distGet dist v = some d →
    v = startNode ∨ ∃ u, predGet preds v = some u
  pred_order : ∀ v u, predGet preds v = some u →
    v ∉ visited ∨ ∃ l1 l2, visited = l1 ++ v :: l2 ∧ u ∈ l2
  visited_nodup : visited.Nodup
  visited_nodes : ∀ v ∈ visited, v ∈ graphNodes g
  start_zero : distGet dist startNode = some 0
  end_min : ∀ c, Reach g startNode endNode c →
    ∃ d, distGet dist endNode = some d ∧ d ≤ c

end TerraFly

/-! ### Generic lemmas about the dict model and ordered search -/

namespace TerraFly

theorem dictLookup_replace_self {α : Type} (l : List (String × α)) (k : String) (v : α)
    (h : l.any (fun e => decide (e.1 = k)) = true) :
    dictLookup (l.map (fun e => if e.1 = k then (k, v) else e)) k = some v := by
  induction l with
  | nil => simp at h
  | cons e rest ih =>
    by_cases he : e.1 = k
    · simp [dictLookup, List.find?, he]
    · have h2 : rest.any (fun e => decide (e.1 = k)) = true := by
        simpa [List.any_cons, he] using h
      simpa [dictLookup, List.find?, he] using ih h2

theorem dictLookup_append_single {α : Type} (l : List (String × α)) (k : String) (v : α)
    (h : l.any (fun e => decide (e.1 = k)) = false) :
    dictLookup (l ++ [(k, v)]) k = some v := by
  induction l with
  | nil => simp [dictLookup, List.find?]
  | cons e rest ih =>
    simp only [List.any_cons, Bool.or_eq_false_iff] at h
    have hne : ¬ e.1 = k := by simpa using h.1
    simpa [dictLookup, List.find?, hne] using ih h.2

theorem dictLookup_dictSet_self {α : Type} (l : List (String × α)) (k : String) (v : α) :
    dictLookup (dictSet l k v) k = some v := by
  unfold dictSet
  by_cases h : l.any (fun e => decide (e.1 = k))
  · simpa [if_pos h] using dictLookup_replace_self l k v h
  · simpa [if_neg h] using dictLookup_append_single l k v (Bool.eq_false_iff.mpr h)

theorem dictLookup_replace_ne {α : Type} (l : List (String × α)) (k k2 : String) (v : α)
    (hne : k2 ≠ k) :
    dictLookup (l.map (fun e => if e.1 = k then (k, v) else e)) k2 = dictLookup l k2 := by
  induction l with
  | nil => rfl
  | cons e rest ih =>
    by_cases he : e.1 = k
    · have hk2 : ¬ k = k2 := fun hc => hne hc.symm
      have hek2 : ¬ e.1 = k2 := by rw [he]; exact hk2
      simpa [dictLookup, List.find?, he, hk2, hek2] using ih
    · by_cases he2 : e.1 = k2
      · unfold dictLookup
        simp only [List.map_cons, if_neg he]
        rw [List.find?_cons_of_pos _ (by simpa using he2),
          List.find?_cons_of_pos _ (by simpa using he2)]
      · simpa [dictLookup, List.find?, he, he2] using ih

theorem dictLookup_dictSet_ne {α : Type} (l : List (String × α)) (k k2 : String) (v : α)
    (hne : k2 ≠ k) : dictLookup (dictSet l k v) k2 = dictLookup l k2 := by
  unfold dictSet
  by_cases h : l.any (fun e => decide (e.1 = k))
  · simpa [if_pos h] using dictLookup_replace_ne l k k2 v hne
  · simp only [if_neg h]
    have hk2 : ¬ k = k2 := fun hc => hne hc.symm
    induction l with
    | nil => simp [dictLookup, List.find?, hk2]
    | cons e rest ih =>
      by_cases he2 : e.1 = k2
      · simp [dictLookup, List.find?, he2]
      · have ihr := ih (by
          intro h2
          exact h (by simp [List.any_cons, h2]))
        simpa [dictLookup, List.find?, he2] using ihr

theorem dictSet_keys_of_mem {α : Type} (l : List (String × α)) (k : String) (v : α)
    (h : l.any (fun e => decide (e.1 = k)) = true) :
    (dictSet l k v).map Prod.fst = l.map Prod.fst := by
  unfold dictSet
  simp only [if_pos h, List.map_map]
  apply List.map_congr_left
  intro e _
  by_cases he : e.1 = k
  · simp [Function.comp, he]
  · simp [Function.comp, he]

/-- `List.find?` over a `≤`-sorted list returns a minimal element among
those satisfying the predicate. -/
theorem find?_sorted_min {p : ℚ → Bool} {l : List ℚ} {a : ℚ}
    (hs : l.Pairwise (· ≤ ·)) (ha : l.find? p = some a) :
    ∀ b ∈ l, p b = true → a ≤ b := by
  induction l with
  | nil => simp at ha
  | cons x xs ih =>
    rw [List.pairwise_cons] at hs
    intro b hb hpb
    by_cases hpx : p x
    · rw [List.find?_cons_of_pos _ hpx] at ha
      obtain rfl : x = a := by simpa using ha
      rcases List.mem_cons.mp hb with rfl | hbxs
      · exact le_refl _
      · exact hs.1 b hbxs
    · rw [List.find?_cons_of_neg _ (by simpa using hpx)] at ha
      rcases List.mem_cons.mp hb with rfl | hbxs
      · exact absurd hpb (by simpa using hpx)
      · exact ih hs.2 ha b hbxs hpb

theorem altitude_levels_sorted : altitude_levels.Pairwise (· ≤ ·) := by
  norm_num [altitude_levels, List.pairwise_cons]

end TerraFly

/-! ### Behaviour of `find_safe_altitude` and `schedule_flight` -/

namespace TerraFly

theorem find_safe_altitude_some (env : FlightEnv) (paths : List FlightPath)
    (wps : List Point2) (t alt : ℚ)
    (h : find_safe_altitude env paths wps t = some alt) :
    alt ∈ altitude_levels ∧
    routeMaxBuildingHeight env wps + safety_margin ≤ alt ∧
    hasConflictAtLevel env paths wps t alt = false ∧
    (∀ lvl ∈ altitude_levels,
      routeMaxBuildingHeight env wps + safety_margin ≤ lvl →
      hasConflictAtLevel env paths wps t lvl = false → alt ≤ lvl) := by
  unfold find_safe_altitude at h
  have hmem := List.mem_of_find?_eq_some h
  have hmem2 := List.mem_filter.mp hmem
  have hq : routeMaxBuildingHeight env wps + safety_margin ≤ alt := by
    simpa using hmem2.2
  have hp := List.find?_some h
  have hc : hasConflictAtLevel env paths wps t alt = false := by
    simpa using hp
  refine ⟨hmem2.1, hq, hc, ?_⟩
  intro lvl hl hsafe hconf
  have hsorted : (altitude_levels.filter
      (fun a => decide (a ≥ routeMaxBuildingHeight env wps + safety_margin))).Pairwise (· ≤ ·) :=
    altitude_levels_sorted.filter _
  refine find?_sorted_min hsorted h lvl ?_ ?_
  · exact List.mem_filter.mpr ⟨hl, by simpa using hsafe⟩
  · simpa using hconf

theorem find_safe_altitude_none (env : FlightEnv) (paths : List FlightPath)
    (wps : List Point2) (t : ℚ)
    (h : ∀ lvl ∈ altitude_levels,
      routeMaxBuildingHeight env wps + safety_margin ≤ lvl →
      hasConflictAtLevel env paths wps t lvl = true) :
    find_safe_altitude env paths wps t = none := by
  unfold find_safe_altitude
  refine List.find?_eq_none.mpr ?_
  intro lvl hl
  have hm := List.mem_filter.mp hl
  have hsafe : routeMaxBuildingHeight env wps + safety_margin ≤ lvl := by
    simpa using hm.2
  simpa using h lvl hm.1 hsafe

/-- C2: when `schedule_flight` succeeds, the altitude assigned to the
stored route is the lowest level of the discrete ladder
`altitude_levels` that is at least the maximum obstacle height below the
route plus the safety margin and that produces no conflict with any
existing route; the levels are tried in ascending order, and if no such
level exists the call fails. -/
theorem C2_lowest_safe_altitude (env : FlightEnv)
    (paths : List (String × FlightPath)) (drone : String)
    (wps : List Point2) (t : ℚ) (prio : ℤ) :
    (∀ paths2, schedule_flight env paths drone wps t prio = (true, paths2) →
      ∃ alt : ℚ,
        dictLookup paths2 drone = some
          { drone_id := drone
            waypoints := wps.map (fun wp => (wp.1, wp.2, alt))
            start_time := t
            estimated_duration :=
              calculate_duration env (wps.map (fun wp => (wp.1, wp.2, alt)))
            priority := prio
            status := .scheduled } ∧
        alt ∈ altitude_levels ∧
        routeMaxBuildingHeight env wps + safety_margin ≤ alt ∧
        hasConflictAtLevel env (dictValues paths) wps t alt = false ∧
        (∀ lvl ∈ altitude_levels,
          routeMaxBuildingHeight env wps + safety_margin ≤ lvl →
          hasConflictAtLevel env (dictValues paths) wps t lvl = false →
          alt ≤ lvl)) ∧
    ((∀ lvl ∈ altitude_levels,
        routeMaxBuildingHeight env wps + safety_margin ≤ lvl →
        hasConflictAtLevel env (dictValues paths) wps t lvl = true) →
      (schedule_flight env paths drone wps t prio).1 = false) := by
  constructor
  · intro paths2 h
    unfold schedule_flight at h
    cases hfa : find_safe_altitude env (dictValues paths) wps t with
    | none => rw [hfa] at h; simp at h
    | some alt =>
      rw [hfa] at h
      by_cases hb : check_path_building_safety env (wps.map (fun wp => (wp.1, wp.2, alt)))
      · simp only [hb, Bool.not_true, Bool.false_eq_true, if_false, Prod.mk.injEq, true_and] at h
        obtain ⟨hspec1, hspec2, hspec3, hspec4⟩ :=
          find_safe_altitude_some env (dictValues paths) wps t alt hfa
        subst h
        exact ⟨alt, dictLookup_dictSet_self _ _ _, hspec1, hspec2, hspec3, hspec4⟩
      · simp only [Bool.not_eq_true] at hb
        simp [hb] at h
  · intro hall
    unfold schedule_flight
    rw [find_safe_altitude_none env (dictValues paths) wps t hall]

end TerraFly

namespace TerraFly

theorem C2_lowest_safe_altitude_witness :
    schedule_flight envObs47 [] "D1" [(0, 0)] 0 0 = (true, [("D1", fpD1at60)]) ∧
    (∃ alt : ℚ,
      dictLookup [("D1", fpD1at60)] "D1" = some
        { drone_id := "D1"
          waypoints := [((0 : ℚ), (0 : ℚ))].map (fun wp => (wp.1, wp.2, alt))
          start_time := 0
          estimated_duration :=
            calculate_duration envObs47 ([((0 : ℚ), (0 : ℚ))].map (fun wp => (wp.1, wp.2, alt)))
          priority := 0
          status := .scheduled } ∧
      alt ∈ altitude_levels ∧
      routeMaxBuildingHeight envObs47 [(0, 0)] + safety_margin ≤ alt ∧
      hasConflictAtLevel envObs47 (dictValues ([] : List (String × FlightPath))) [(0, 0)] 0 alt
        = false ∧
      (∀ lvl ∈ altitude_levels,
        routeMaxBuildingHeight envObs47 [(0, 0)] + safety_margin ≤ lvl →
        hasConflictAtLevel envObs47 (dictValues ([] : List (String × FlightPath))) [(0, 0)] 0 lvl
          = false →
        alt ≤ lvl)) := by
  constructor
  · norm_num +decide [schedule_flight, find_safe_altitude, altitude_levels, hasConflictAtLevel,
      testFlightPath, check_path_conflict, check_point_conflict, min_separation,
      vertical_separation, routeMaxBuildingHeight, get_max_building_height, withinRadius,
      safety_margin, check_path_building_safety, consecutivePairs, samplePoints,
      calculate_duration, pairDistSum, flight_speed, dictValues, dictSet, dictLookup,
      envObs47, flatDist3, fpD1at60, List.find?, abs_eq_max_neg, max_def]
  · exact (C2_lowest_safe_altitude envObs47 [] "D1" [(0, 0)] 0 0).1 [("D1", fpD1at60)]
      (by norm_num +decide [schedule_flight, find_safe_altitude, altitude_levels,
        hasConflictAtLevel, testFlightPath, check_path_conflict, check_point_conflict,
        min_separation, vertical_separation, routeMaxBuildingHeight, get_max_building_height,
        withinRadius, safety_margin, check_path_building_safety, consecutivePairs, samplePoints,
        calculate_duration, pairDistSum, flight_speed, dictValues, dictSet, dictLookup,
        envObs47, flatDist3, fpD1at60, List.find?, abs_eq_max_neg, max_def])

end TerraFly

namespace TerraFly

/-- C1 (amended): for every route accepted by `schedule_flight` and every
already-present route with status `scheduled` or `active` whose time
window overlaps it, every pair of waypoints (one from each route) differs
by more than `min_separation = 0.0001` degrees in latitude or in
longitude, or by at least `vertical_separation = 10` metres in altitude.
(The claim's "horizontal distance of at least 50m" does not hold; see the
counterexample.) -/
theorem C1_separation_amended (env : FlightEnv)
    (paths : List (String × FlightPath)) (drone : String)
    (wps : List Point2) (t : ℚ) (prio : ℤ)
    (paths2 : List (String × FlightPath))
    (hs : schedule_flight env paths drone wps t prio = (true, paths2))
    (newfp : FlightPath) (hnew : dictLookup paths2 drone = some newfp)
    (p : FlightPath) (hp : p ∈ dictValues paths)
    (hst : p.status = .scheduled ∨ p.status = .active)
    (hov : ¬(newfp.start_time + newfp.estimated_duration < p.start_time ∨
             p.start_time + p.estimated_duration < newfp.start_time)) :
    ∀ w1 ∈ newfp.waypoints, ∀ w2 ∈ p.waypoints,
      min_separation < |w1.1 - w2.1| ∨ min_separation < |w1.2.1 - w2.2.1| ∨
        vertical_separation ≤ |w1.2.2 - w2.2.2| := by
  unfold schedule_flight at hs
  cases hfa : find_safe_altitude env (dictValues paths) wps t with
  | none => rw [hfa] at hs; simp at hs
  | some alt =>
    rw [hfa] at hs
    by_cases hb : check_path_building_safety env (wps.map (fun wp => (wp.1, wp.2, alt)))
    · simp only [hb, Bool.not_true, Bool.false_eq_true, if_false, Prod.mk.injEq,
        true_and] at hs
      subst hs
      rw [dictLookup_dictSet_self] at hnew
      obtain rfl : newfp = _ := (Option.some.injEq _ _).mp hnew.symm
      have hnoc := (find_safe_altitude_some env (dictValues paths) wps t alt hfa).2.2.1
      unfold hasConflictAtLevel at hnoc
      have hall := List.any_eq_false.mp hnoc p hp
      unfold check_path_conflict at hall
      rw [if_neg (by
        rintro (h1 | h2)
        · exact FlightStatus.noConfusion (show FlightStatus.scheduled = .completed from h1)
        · rcases hst with h | h <;> rw [h] at h2 <;> exact FlightStatus.noConfusion h2)] at hall
      rw [if_neg (by
        intro hcon
        exact hov (by simpa [testFlightPath, calculate_duration] using hcon))] at hall
      intro w1 hw1 w2 hw2
      have hw1t : w1 ∈ (testFlightPath env wps alt t).waypoints := by
        simpa [testFlightPath] using hw1
      have h1 := List.any_eq_false.mp (Bool.eq_false_iff.mpr hall) w1 hw1t
      have h2 := List.any_eq_false.mp (Bool.eq_false_iff.mpr h1) w2 hw2
      have hpt : check_point_conflict w1 w2 = false := Bool.eq_false_iff.mpr h2
      by_cases ha : min_separation < |w1.1 - w2.1|
      · exact Or.inl ha
      by_cases hb2 : min_separation < |w1.2.1 - w2.2.1|
      · exact Or.inr (Or.inl hb2)
      by_cases hcv : vertical_separation ≤ |w1.2.2 - w2.2.2|
      · exact Or.inr (Or.inr hcv)
      · exfalso
        simp [check_point_conflict, gt_iff_lt, ha, hb2, hcv] at hpt
    · simp only [Bool.not_eq_true] at hb
      simp [hb] at hs

end TerraFly

namespace TerraFly

theorem mem_dictValues_of_lookup {α : Type} (l : List (String × α)) (k : String) (v : α)
    (h : dictLookup l k = some v) : v ∈ dictValues l := by
  unfold dictLookup at h
  cases hf : l.find? (fun e => decide (e.1 = k)) with
  | none => rw [hf] at h; simp at h
  | some e =>
    rw [hf] at h
    simp only [Option.map_some', Option.some.injEq] at h
    subst h
    exact List.mem_map.mpr ⟨e, List.mem_of_find?_eq_some hf, rfl⟩

theorem any_key_of_lookup {α : Type} (l : List (String × α)) (k : String) (v : α)
    (h : dictLookup l k = some v) : l.any (fun e => decide (e.1 = k)) = true := by
  unfold dictLookup at h
  cases hf : l.find? (fun e => decide (e.1 = k)) with
  | none => rw [hf] at h; simp at h
  | some e =>
    have hpe := List.find?_some hf
    exact List.any_eq_true.mpr ⟨e, List.mem_of_find?_eq_some hf, hpe⟩

theorem C1_separation_amended_witness :
    min_separation < |((1 : ℚ)/5000, (0 : ℚ), (30 : ℚ)).1 - ((0 : ℚ), (0 : ℚ), (30 : ℚ)).1| ∨
    min_separation <
      |((1 : ℚ)/5000, (0 : ℚ), (30 : ℚ)).2.1 - ((0 : ℚ), (0 : ℚ), (30 : ℚ)).2.1| ∨
    vertical_separation ≤
      |((1 : ℚ)/5000, (0 : ℚ), (30 : ℚ)).2.2 - ((0 : ℚ), (0 : ℚ), (30 : ℚ)).2.2| :=
  C1_separation_amended envNoObs [("D1", fpD1at30)] "D2" [(1/5000, 0)] 0 0
    [("D1", fpD1at30), ("D2", fpD2at30)]
    (by norm_num +decide [schedule_flight, find_safe_altitude, altitude_levels,
      hasConflictAtLevel, testFlightPath, check_path_conflict, check_point_conflict,
      min_separation, vertical_separation, routeMaxBuildingHeight, get_max_building_height,
      withinRadius, safety_margin, check_path_building_safety, consecutivePairs, samplePoints,
      calculate_duration, pairDistSum, flight_speed, dictValues, dictSet, dictLookup,
      envNoObs, flatDist3, fpD1at30, fpD2at30, List.find?, abs_eq_max_neg, max_def])
    fpD2at30
    (by norm_num +decide [dictLookup, List.find?])
    fpD1at30
    (by simp [dictValues])
    (Or.inl rfl)
    (by norm_num [fpD1at30, fpD2at30])
    ((1 : ℚ)/5000, (0 : ℚ), (30 : ℚ)) (by simp [fpD2at30])
    ((0 : ℚ), (0 : ℚ), (30 : ℚ)) (by simp [fpD1at30])

/-- C1 counterexample: `schedule_flight` accepts a route for `D2` whose
single waypoint is about 22 metres (in the spec's own metres metric,
squared: `492.84 < 2500 = 50²`) from a waypoint of the already-present
`scheduled`, time-overlapping route of `D1`, at the same altitude — so the
claimed "horizontal ≥ 50 m or vertical ≥ 10 m" separation is violated. -/
theorem C1_fifty_metre_counterexample :
    (schedule_flight envNoObs [("D1", fpD1at30)] "D2" [(1/5000, 0)] 0 0).1 = true ∧
    dictLookup (schedule_flight envNoObs [("D1", fpD1at30)] "D2" [(1/5000, 0)] 0 0).2 "D2" =
      some fpD2at30 ∧
    fpD1at30 ∈ dictValues [("D1", fpD1at30)] ∧
    fpD1at30.status = .scheduled ∧
    ¬(fpD2at30.start_time + fpD2at30.estimated_duration < fpD1at30.start_time ∨
      fpD1at30.start_time + fpD1at30.estimated_duration < fpD2at30.start_time) ∧
    (1/5000, 0, 30) ∈ fpD2at30.waypoints ∧
    (0, 0, 30) ∈ fpD1at30.waypoints ∧
    specHorizontalSqMeters (1/5000, 0, 30) (0, 0, 30) < 50 ^ 2 ∧
    |((1:ℚ)/5000, (0:ℚ), (30:ℚ)).2.2 - ((0:ℚ), (0:ℚ), (30:ℚ)).2.2| < vertical_separation := by
  refine ⟨?_, ?_, ?_, rfl, ?_, ?_, ?_, ?_, ?_⟩
  · norm_num +decide [schedule_flight, find_safe_altitude, altitude_levels,
      hasConflictAtLevel, testFlightPath, check_path_conflict, check_point_conflict,
      min_separation, vertical_separation, routeMaxBuildingHeight, get_max_building_height,
      withinRadius, safety_margin, check_path_building_safety, consecutivePairs, samplePoints,
      calculate_duration, pairDistSum, flight_speed, dictValues, dictSet, dictLookup,
      envNoObs, flatDist3, fpD1at30, List.find?, abs_eq_max_neg, max_def]
  · norm_num +decide [schedule_flight, find_safe_altitude, altitude_levels,
      hasConflictAtLevel, testFlightPath, check_path_conflict, check_point_conflict,
      min_separation, vertical_separation, routeMaxBuildingHeight, get_max_building_height,
      withinRadius, safety_margin, check_path_building_safety, consecutivePairs, samplePoints,
      calculate_duration, pairDistSum, flight_speed, dictValues, dictSet, dictLookup,
      envNoObs, flatDist3, fpD1at30, fpD2at30, List.find?, abs_eq_max_neg, max_def]
  · simp [dictValues]
  · norm_num [fpD1at30, fpD2at30]
  · simp [fpD2at30]
  · simp [fpD1at30]
  · norm_num [specHorizontalSqMeters]
  · norm_num [vertical_separation]

/-- C6 (code bug): a route whose status has been set to `aborted` is still
treated as a conflicting route by the very next `schedule_flight` call:
`check_path_conflict` exempts only `completed` routes, so the stale
aborted route of `D1` at altitude 30 forces the new route of `D2` up to
altitude 40, whereas the same call with the aborted route gone is
assigned 30. -/
theorem C6_aborted_blocks_allocation :
    update_flight_status [("D1", fpD1at30)] "D1" .aborted = [("D1", fpAborted30)] ∧
    schedule_flight envNoObs [("D1", fpAborted30)] "D2" [(0, 0)] 0 0 =
      (true, [("D1", fpAborted30), ("D2", fpD2at40)]) ∧
    check_path_conflict (testFlightPath envNoObs [(0, 0)] 30 0) fpAborted30 (5 * 60) = true ∧
    schedule_flight envNoObs [] "D2" [(0, 0)] 0 0 = (true, [("D2", fpD2at30origin)]) := by
  refine ⟨?_, ?_, ?_, ?_⟩
  · norm_num +decide [update_flight_status, fpD1at30, fpAborted30]
  · norm_num +decide [schedule_flight, find_safe_altitude, altitude_levels,
      hasConflictAtLevel, testFlightPath, check_path_conflict, check_point_conflict,
      min_separation, vertical_separation, routeMaxBuildingHeight, get_max_building_height,
      withinRadius, safety_margin, check_path_building_safety, consecutivePairs, samplePoints,
      calculate_duration, pairDistSum, flight_speed, dictValues, dictSet, dictLookup,
      envNoObs, flatDist3, fpD1at30, fpAborted30, fpD2at40, List.find?, abs_eq_max_neg, max_def]
  · norm_num +decide [testFlightPath, check_path_conflict, check_point_conflict,
      min_separation, vertical_separation, calculate_duration, pairDistSum, flight_speed,
      envNoObs, flatDist3, fpD1at30, fpAborted30, abs_eq_max_neg, max_def]
  · norm_num +decide [schedule_flight, find_safe_altitude, altitude_levels,
      hasConflictAtLevel, testFlightPath, check_path_conflict, check_point_conflict,
      min_separation, vertical_separation, routeMaxBuildingHeight, get_max_building_height,
      withinRadius, safety_margin, check_path_building_safety, consecutivePairs, samplePoints,
      calculate_duration, pairDistSum, flight_speed, dictValues, dictSet, dictLookup,
      envNoObs, flatDist3, fpD2at30origin, List.find?, abs_eq_max_neg, max_def]

end TerraFly

namespace TerraFly

/-- C10 counterexample: the claim that the replacing route "is never
conflict-checked against" the drone's own previous route is false.  With
`D1` holding a scheduled route at altitude 30, re-scheduling `D1` over the
same ground point stores a route at altitude 40: the conflict search did
test the candidate at 30 against `D1`'s own old route and found a
conflict, which is the only route in the state. -/
theorem C10_conflict_checked_counterexample :
    schedule_flight envNoObs [("D1", fpD1at30)] "D1" [(0, 0)] 0 0 =
      (true, [("D1", fpD1at40)]) ∧
    check_path_conflict (testFlightPath envNoObs [(0, 0)] 30 0) fpD1at30 (5 * 60) = true ∧
    hasConflictAtLevel envNoObs (dictValues [("D1", fpD1at30)]) [(0, 0)] 0 30 = true ∧
    hasConflictAtLevel envNoObs (dictValues [("D1", fpD1at30)]) [(0, 0)] 0 40 = false := by
  refine ⟨?_, ?_, ?_, ?_⟩
  · norm_num +decide [schedule_flight, find_safe_altitude, altitude_levels,
      hasConflictAtLevel, testFlightPath, check_path_conflict, check_point_conflict,
      min_separation, vertical_separation, routeMaxBuildingHeight, get_max_building_height,
      withinRadius, safety_margin, check_path_building_safety, consecutivePairs, samplePoints,
      calculate_duration, pairDistSum, flight_speed, dictValues, dictSet, dictLookup,
      envNoObs, flatDist3, fpD1at30, fpD1at40, List.find?, abs_eq_max_neg, max_def]
  · norm_num +decide [testFlightPath, check_path_conflict, check_point_conflict,
      min_separation, vertical_separation, calculate_duration, pairDistSum, flight_speed,
      envNoObs, flatDist3, fpD1at30, abs_eq_max_neg, max_def]
  · norm_num +decide [hasConflictAtLevel, testFlightPath, check_path_conflict,
      check_point_conflict, min_separation, vertical_separation, calculate_duration,
      pairDistSum, flight_speed, dictValues, envNoObs, flatDist3, fpD1at30,
      abs_eq_max_neg, max_def]
  · norm_num +decide [hasConflictAtLevel, testFlightPath, check_path_conflict,
      check_point_conflict, min_separation, vertical_separation, calculate_duration,
      pairDistSum, flight_speed, dictValues, envNoObs, flatDist3, fpD1at30,
      abs_eq_max_neg, max_def]

/-- C10 (amended): the scheduler holds at most one `FlightPath` per drone
id (a dict keyed by drone id, whose key set a successful re-schedule
leaves unchanged).  A second successful `schedule_flight` call for a drone
that already has a route silently replaces that route — the old plan is
dropped without being marked completed or aborted — but the replacing
route IS conflict-checked against the old one: on success they do not
conflict. -/
theorem C10_replacement_amended (env : FlightEnv)
    (paths : List (String × FlightPath)) (drone : String)
    (wps : List Point2) (t : ℚ) (prio : ℤ)
    (paths2 : List (String × FlightPath)) (old : FlightPath)
    (hold : dictLookup paths drone = some old)
    (hs : schedule_flight env paths drone wps t prio = (true, paths2)) :
    ∃ newfp : FlightPath,
      dictLookup paths2 drone = some newfp ∧
      paths2.map Prod.fst = paths.map Prod.fst ∧
      (∀ d, d ≠ drone → dictLookup paths2 d = dictLookup paths d) ∧
      check_path_conflict newfp old (5 * 60) = false := by
  unfold schedule_flight at hs
  cases hfa : find_safe_altitude env (dictValues paths) wps t with
  | none => rw [hfa] at hs; simp at hs
  | some alt =>
    rw [hfa] at hs
    by_cases hb : check_path_building_safety env (wps.map (fun wp => (wp.1, wp.2, alt)))
    · simp only [hb, Bool.not_true, Bool.false_eq_true, if_false, Prod.mk.injEq,
        true_and] at hs
      subst hs
      have hnoc := (find_safe_altitude_some env (dictValues paths) wps t alt hfa).2.2.1
      unfold hasConflictAtLevel at hnoc
      have hmemold := mem_dictValues_of_lookup paths drone old hold
      have hclean := List.any_eq_false.mp hnoc old hmemold
      refine ⟨_, dictLookup_dictSet_self _ _ _,
        dictSet_keys_of_mem _ _ _ (any_key_of_lookup paths drone old hold),
        fun d hd => dictLookup_dictSet_ne _ _ _ _ hd, ?_⟩
      exact Bool.eq_false_iff.mpr hclean
    · simp only [Bool.not_eq_true] at hb
      simp [hb] at hs

theorem C10_replacement_amended_witness :
    ∃ newfp : FlightPath,
      dictLookup [("D1", fpD1at40)] "D1" = some newfp ∧
      ([("D1", fpD1at40)] : List (String × FlightPath)).map Prod.fst =
        ([("D1", fpD1at30)] : List (String × FlightPath)).map Prod.fst ∧
      (∀ d, d ≠ "D1" →
        dictLookup [("D1", fpD1at40)] d = dictLookup [("D1", fpD1at30)] d) ∧
      check_path_conflict newfp fpD1at30 (5 * 60) = false :=
  C10_replacement_amended envNoObs [("D1", fpD1at30)] "D1" [(0, 0)] 0 0
    [("D1", fpD1at40)] fpD1at30
    (by norm_num +decide [dictLookup, List.find?])
    (by norm_num +decide [schedule_flight, find_safe_altitude, altitude_levels,
      hasConflictAtLevel, testFlightPath, check_path_conflict, check_point_conflict,
      min_separation, vertical_separation, routeMaxBuildingHeight, get_max_building_height,
      withinRadius, safety_margin, check_path_building_safety, consecutivePairs, samplePoints,
      calculate_duration, pairDistSum, flight_speed, dictValues, dictSet, dictLookup,
      envNoObs, flatDist3, fpD1at30, fpD1at40, List.find?, abs_eq_max_neg, max_def])

end TerraFly

/-! ### Selection and filtering in the unified scheduler -/

namespace TerraFly

theorem foldlMin_mem {α : Type} (f : α → ℚ) (l : List α) (b : α) :
    l.foldl (fun best x => if f x < f best then x else best) b ∈ b :: l := by
  induction l generalizing b with
  | nil => simp
  | cons x rest ih =>
    simp only [List.foldl_cons]
    have h := ih (if f x < f b then x else b)
    rcases List.mem_cons.mp h with h1 | h2
    · rw [h1]
      by_cases hc : f x < f b
      · simp [hc]
      · simp [hc]
    · simp [List.mem_cons.mpr (Or.inr (List.mem_cons.mpr (Or.inr h2)))]

theorem foldlMin_le {α : Type} (f : α → ℚ) (l : List α) (b : α) :
    ∀ y ∈ b :: l, f (l.foldl (fun best x => if f x < f best then x else best) b) ≤ f y := by
  induction l generalizing b with
  | nil => simp
  | cons x rest ih =>
    intro y hy
    simp only [List.foldl_cons]
    have hbase : f (if f x < f b then x else b) ≤ f b := by
      by_cases hc : f x < f b
      · rw [if_pos hc]; exact le_of_lt hc
      · rw [if_neg hc]
    have hbasex : f (if f x < f b then x else b) ≤ f x := by
      by_cases hc : f x < f b
      · rw [if_pos hc]
      · rw [if_neg hc]; exact le_of_not_lt hc
    have hself := ih (if f x < f b then x else b) _ (List.mem_cons_self _ _)
    rcases List.mem_cons.mp hy with rfl | hy2
    · exact le_trans hself hbase
    · rcases List.mem_cons.mp hy2 with rfl | hy3
      · exact le_trans hself hbasex
      · exact ih (if f x < f b then x else b) y (List.mem_cons.mpr (Or.inr hy3))

theorem foldlMin_first {α : Type} (f : α → ℚ) (l : List α) (b : α) :
    ∃ l1 l2, b :: l = l1 ++ (l.foldl (fun best x => if f x < f best then x else best) b) :: l2 ∧
      ∀ y ∈ l1, f (l.foldl (fun best x => if f x < f best then x else best) b) < f y := by
  induction l generalizing b with
  | nil => exact ⟨[], [], rfl, by simp⟩
  | cons x rest ih =>
    simp only [List.foldl_cons]
    by_cases hc : f x < f b
    · rw [if_pos hc]
      obtain ⟨l1, l2, heq, hstrict⟩ := ih x
      have hmin := foldlMin_le f rest x _ (List.mem_cons_self _ _)
      refine ⟨b :: l1, l2, ?_, ?_⟩
      · rw [List.cons_append, ← heq]
      · intro y hy
        rcases List.mem_cons.mp hy with rfl | hy2
        · exact lt_of_le_of_lt hmin hc
        · exact hstrict y hy2
    · rw [if_neg hc]
      obtain ⟨l1, l2, heq, hstrict⟩ := ih b
      cases l1 with
      | nil =>
        simp only [List.nil_append] at heq
        have hb := (List.cons.injEq _ _ _ _).mp heq
        refine ⟨[], x :: rest, ?_, by simp⟩
        rw [List.nil_append, ← hb.1]
      | cons z l1t =>
        rw [List.cons_append, List.cons.injEq] at heq
        obtain ⟨hbz, hrest⟩ := heq
        have hfb : f (rest.foldl (fun best x => if f x < f best then x else best) b) < f b := by
          rw [show f b = f z from congrArg f hbz]
          exact hstrict z (List.mem_cons_self _ _)
        refine ⟨b :: x :: l1t, l2, ?_, ?_⟩
        · rw [List.cons_append, List.cons_append, ← hrest]
        · intro y hy
          rcases List.mem_cons.mp hy with rfl | hy2
          · exact hfb
          · rcases List.mem_cons.mp hy2 with rfl | hy3
            · exact lt_of_lt_of_le hfb (le_of_not_lt hc)
            · exact hstrict y (List.mem_cons.mpr (Or.inr hy3))

theorem pythonMinBy_mem {α : Type} (f : α → ℚ) (l : List α) (a : α)
    (h : pythonMinBy f l = some a) : a ∈ l := by
  cases l with
  | nil => simp [pythonMinBy] at h
  | cons x rest =>
    simp only [pythonMinBy, Option.some.injEq] at h
    rw [← h]
    exact foldlMin_mem f rest x

theorem pythonMinBy_le {α : Type} (f : α → ℚ) (l : List α) (a : α)
    (h : pythonMinBy f l = some a) : ∀ y ∈ l, f a ≤ f y := by
  cases l with
  | nil => simp [pythonMinBy] at h
  | cons x rest =>
    simp only [pythonMinBy, Option.some.injEq] at h
    rw [← h]
    exact foldlMin_le f rest x

theorem pythonMinBy_first {α : Type} (f : α → ℚ) (l : List α) (a : α)
    (h : pythonMinBy f l = some a) :
    ∃ l1 l2, l = l1 ++ a :: l2 ∧ ∀ y ∈ l1, f a < f y := by
  cases l with
  | nil => simp [pythonMinBy] at h
  | cons x rest =>
    simp only [pythonMinBy, Option.some.injEq] at h
    rw [← h]
    exact foldlMin_first f rest x

theorem mem_find_suitable {vehicles : List (String × Vehicle)} {task : Task}
    {stage : String} {v : String}
    (hv : v ∈ find_suitable_vehicles vehicles task stage) :
    ∃ veh : Vehicle, (v, veh) ∈ vehicles ∧
      veh.status = "idle" ∧
      min_battery_level ≤ veh.battery ∧
      veh.current_payload + task.payload_weight ≤ veh.payload_capacity ∧
      ∀ req ∈ task.special_requirements, req ∈ veh.capabilities := by
  unfold find_suitable_vehicles at hv
  obtain ⟨e, he, rfl⟩ := List.mem_map.mp hv
  obtain ⟨hmem, hpred⟩ := List.mem_filter.mp he
  simp only [Bool.and_eq_true, decide_eq_true_eq, Bool.not_eq_true',
    decide_eq_false_iff_not, not_lt, not_le, List.all_eq_true] at hpred
  obtain ⟨⟨⟨hidle, hbat⟩, hpay⟩, hcap⟩ := hpred
  refine ⟨e.2, by simpa using hmem, hidle, hbat, ?_, ?_⟩
  · exact le_of_not_lt (by simpa using hpay)
  · intro req hreq
    simpa using hcap req hreq

end TerraFly

namespace TerraFly

/-- C3 (amended): for each assignment stage, the selected vehicle is a
filtered candidate of minimum cost, where
`cost = distance_cost + battery_cost + time_cost` as computed by
`calculate_task_cost` (with `time_cost = max(0, 1 − remaining/3600)` when a
deadline is set and `0` otherwise, never infinite); no candidate is
excluded for a missed deadline or projected energy use; ties break to the
candidate earliest in vehicle-registration order, not to the lowest id. -/
theorem C3_cost_selection_amended (dist : Point2 → Point2 → ℚ) (now : ℚ)
    (vehicles : List (String × Vehicle)) (task : Task) (stage : String) (v : String)
    (h : pythonMinBy (fun vid => calculate_task_cost dist now vehicles task vid stage)
        (find_suitable_vehicles vehicles task stage) = some v) :
    assign_stage dist now vehicles task stage =
      (vehicles.map (fun e => if e.1 = v then (e.1, { e.2 with status := "busy" }) else e),
       { task with assigned_vehicles := dictSet task.assigned_vehicles stage v }) ∧
    v ∈ find_suitable_vehicles vehicles task stage ∧
    (∀ u ∈ find_suitable_vehicles vehicles task stage,
      calculate_task_cost dist now vehicles task v stage ≤
        calculate_task_cost dist now vehicles task u stage) ∧
    ∃ l1 l2, find_suitable_vehicles vehicles task stage = l1 ++ v :: l2 ∧
      ∀ u ∈ l1, calculate_task_cost dist now vehicles task v stage <
        calculate_task_cost dist now vehicles task u stage := by
  refine ⟨?_, pythonMinBy_mem _ _ _ h, pythonMinBy_le _ _ _ h, pythonMinBy_first _ _ _ h⟩
  unfold assign_stage
  rw [h]

theorem C3_cost_selection_amended_witness :
    (assign_stage taxiDist 0 c3Vehicles c3Task "pickup" =
      (c3Vehicles.map (fun e =>
        if e.1 = "V2" then (e.1, { e.2 with status := "busy" }) else e),
       { c3Task with assigned_vehicles := dictSet c3Task.assigned_vehicles "pickup" "V2" }) ∧
    "V2" ∈ find_suitable_vehicles c3Vehicles c3Task "pickup" ∧
    (∀ u ∈ find_suitable_vehicles c3Vehicles c3Task "pickup",
      calculate_task_cost taxiDist 0 c3Vehicles c3Task "V2" "pickup" ≤
        calculate_task_cost taxiDist 0 c3Vehicles c3Task u "pickup") ∧
    ∃ l1 l2, find_suitable_vehicles c3Vehicles c3Task "pickup" = l1 ++ "V2" :: l2 ∧
      ∀ u ∈ l1, calculate_task_cost taxiDist 0 c3Vehicles c3Task "V2" "pickup" <
        calculate_task_cost taxiDist 0 c3Vehicles c3Task u "pickup") :=
  C3_cost_selection_amended taxiDist 0 c3Vehicles c3Task "pickup" "V2"
    (by norm_num +decide [pythonMinBy, find_suitable_vehicles, calculate_task_cost,
      taxiDist, c3Vehicles, c3Task, vehV1, vehV2, min_battery_level, dictLookup,
      List.find?, List.filter, dpOrigin, max_def, abs_eq_max_neg])

/-- C3 counterexample: with two identical idle cars at the task's start
point, `V2` registered before `V1`, both costs are equal, yet the
scheduler selects `V2`, not the lowest id `V1`; moreover the task's
deadline passed 3600 seconds ago and the candidates still carry the
finite cost `2 = 0 + 0 + (1 + 3600/3600)` instead of being excluded. -/
theorem C3_tiebreak_counterexample :
    find_suitable_vehicles c3Vehicles c3Task "pickup" = ["V2", "V1"] ∧
    calculate_task_cost taxiDist 0 c3Vehicles c3Task "V2" "pickup" =
      calculate_task_cost taxiDist 0 c3Vehicles c3Task "V1" "pickup" ∧
    pythonMinBy (fun vid => calculate_task_cost taxiDist 0 c3Vehicles c3Task vid "pickup")
      (find_suitable_vehicles c3Vehicles c3Task "pickup") = some "V2" ∧
    ("V1" : String) < "V2" ∧
    c3Task.deadline = some (-3600) ∧
    calculate_task_cost taxiDist 0 c3Vehicles c3Task "V2" "pickup" = 2 ∧
    (assign_stage taxiDist 0 c3Vehicles c3Task "pickup").2.assigned_vehicles =
      [("pickup", "V2")] := by
  refine ⟨?_, ?_, ?_, by rw [String.lt_iff_toList_lt]; decide, rfl, ?_, ?_⟩
  · norm_num +decide [find_suitable_vehicles, c3Vehicles, c3Task, vehV1, vehV2,
      min_battery_level, List.filter]
  · norm_num +decide [calculate_task_cost, taxiDist, c3Vehicles, c3Task, vehV1, vehV2,
      dictLookup, List.find?, dpOrigin, max_def, abs_eq_max_neg]
  · norm_num +decide [pythonMinBy, find_suitable_vehicles, calculate_task_cost, taxiDist,
      c3Vehicles, c3Task, vehV1, vehV2, min_battery_level, dictLookup, List.find?,
      List.filter, dpOrigin, max_def, abs_eq_max_neg]
  · norm_num +decide [calculate_task_cost, taxiDist, c3Vehicles, c3Task, vehV1, vehV2,
      dictLookup, List.find?, dpOrigin, max_def, abs_eq_max_neg]
  · norm_num +decide [assign_stage, pythonMinBy, find_suitable_vehicles,
      calculate_task_cost, taxiDist, c3Vehicles, c3Task, vehV1, vehV2, min_battery_level,
      dictLookup, dictSet, List.find?, List.filter, dpOrigin, max_def, abs_eq_max_neg]

/-- C4 (amended): whenever a task stage is assigned to a vehicle, at
assignment time that vehicle satisfies `status = 'idle'`,
`battery ≥ min_battery_level` (the source keeps candidates with battery
equal to the threshold; the claim's strict `>` fails there),
`current_payload + task.weight ≤ max_payload`, and its capabilities
include every special requirement of the task. -/
theorem C4_assignment_filter_amended (dist : Point2 → Point2 → ℚ) (now : ℚ)
    (vehicles : List (String × Vehicle)) (task : Task) (stage : String) (v : String)
    (h : pythonMinBy (fun vid => calculate_task_cost dist now vehicles task vid stage)
        (find_suitable_vehicles vehicles task stage) = some v) :
    assign_stage dist now vehicles task stage =
      (vehicles.map (fun e => if e.1 = v then (e.1, { e.2 with status := "busy" }) else e),
       { task with assigned_vehicles := dictSet task.assigned_vehicles stage v }) ∧
    ∃ veh : Vehicle, (v, veh) ∈ vehicles ∧
      veh.status = "idle" ∧
      min_battery_level ≤ veh.battery ∧
      veh.current_payload + task.payload_weight ≤ veh.payload_capacity ∧
      ∀ req ∈ task.special_requirements, req ∈ veh.capabilities := by
  constructor
  · unfold assign_stage
    rw [h]
  · exact mem_find_suitable (pythonMinBy_mem _ _ _ h)

theorem C4_assignment_filter_amended_witness :
    (assign_stage taxiDist 0 c4Vehicles c4Task "pickup" =
      (c4Vehicles.map (fun e =>
        if e.1 = "V1" then (e.1, { e.2 with status := "busy" }) else e),
       { c4Task with assigned_vehicles := dictSet c4Task.assigned_vehicles "pickup" "V1" }) ∧
    ∃ veh : Vehicle, ("V1", veh) ∈ c4Vehicles ∧
      veh.status = "idle" ∧
      min_battery_level ≤ veh.battery ∧
      veh.current_payload + c4Task.payload_weight ≤ veh.payload_capacity ∧
      ∀ req ∈ c4Task.special_requirements, req ∈ veh.capabilities) :=
  C4_assignment_filter_amended taxiDist 0 c4Vehicles c4Task "pickup" "V1"
    (by norm_num +decide [pythonMinBy, find_suitable_vehicles, calculate_task_cost,
      taxiDist, c4Vehicles, c4Task, vehBoundary, min_battery_level, dictLookup,
      List.find?, List.filter, dpOrigin, max_def, abs_eq_max_neg])

/-- C4 counterexample: a vehicle whose battery is exactly
`min_battery_level = 15` is assigned the stage, so the claimed strict
inequality `battery > min_battery_level` does not hold at assignment
time. -/
theorem C4_battery_boundary_counterexample :
    (assign_stage taxiDist 0 c4Vehicles c4Task "pickup").2.assigned_vehicles =
      [("pickup", "V1")] ∧
    dictLookup c4Vehicles "V1" = some vehBoundary ∧
    vehBoundary.battery = min_battery_level ∧
    ¬ (vehBoundary.battery > min_battery_level) := by
  refine ⟨?_, ?_, ?_, ?_⟩
  · norm_num +decide [assign_stage, pythonMinBy, find_suitable_vehicles,
      calculate_task_cost, taxiDist, c4Vehicles, c4Task, vehBoundary, min_battery_level,
      dictLookup, dictSet, List.find?, List.filter, dpOrigin, max_def, abs_eq_max_neg]
  · norm_num +decide [dictLookup, List.find?, c4Vehicles]
  · norm_num [vehBoundary, min_battery_level]
  · norm_num [vehBoundary, min_battery_level]

end TerraFly

namespace TerraFly

/-- One scheduler iteration on the retry scenario: the task is popped, no
vehicle passes the capability filter, `_assign_task` reports failure, and
the task is re-queued unchanged with the current clock reading.  No retry
counter exists and `task_retry_limit` is never consulted. -/
theorem c5_tick_requeues (t now : ℚ) :
    scheduler_tick taxiDist now (c5StateAt t) = some (c5StateAt now) := by
  simp [scheduler_tick, popMinEntry, minEntry, removeFirst, c5StateAt, dictLookup,
    List.find?, c5Task, assign_task, assign_stage, pythonMinBy, find_suitable_vehicles,
    List.filter, c5Vehicle, dictSet, Priority.value]

theorem c5_applyTicks (nows : List ℚ) (t : ℚ) :
    ∃ t2 : ℚ, applyTicks taxiDist nows (c5StateAt t) = some (c5StateAt t2) := by
  induction nows generalizing t with
  | nil => exact ⟨t, rfl⟩
  | cons now rest ih =>
    obtain ⟨t2, h2⟩ := ih now
    exact ⟨t2, by simp [applyTicks, c5_tick_requeues, h2]⟩

/-- C5 (code bug): in the scenario where no vehicle ever satisfies the
task's required capability, every scheduler iteration re-queues the task
and leaves it `pending` — for any number of ticks, including
`task_retry_limit + 1` — and the task never transitions to `failed`.  The
code tracks no retry count (`Task` has no such field) and never reads
`task_retry_limit`. -/
theorem C5_no_retry_limit (nows : List ℚ) :
    ∃ s2 : SchedState, applyTicks taxiDist nows c5State = some s2 ∧
      (dictLookup s2.tasks "T1").map Task.status = some TaskStatus.pending ∧
      (nows.length = task_retry_limit + 1 →
        ¬ (dictLookup s2.tasks "T1").map Task.status = some TaskStatus.failed) := by
  obtain ⟨t2, h2⟩ := c5_applyTicks nows 0
  refine ⟨c5StateAt t2, h2, ?_, ?_⟩
  · simp [c5StateAt, dictLookup, List.find?, c5Task]
  · intro _ hcon
    simp [c5StateAt, dictLookup, List.find?, c5Task] at hcon

theorem C5_no_retry_limit_witness :
    ∃ s2 : SchedState, applyTicks taxiDist [0, 1, 2, 3] c5State = some s2 ∧
      (dictLookup s2.tasks "T1").map Task.status = some TaskStatus.pending ∧
      ¬ (dictLookup s2.tasks "T1").map Task.status = some TaskStatus.failed := by
  obtain ⟨s2, h1, h2, h3⟩ := C5_no_retry_limit [0, 1, 2, 3]
  exact ⟨s2, h1, h2, h3 (by decide)⟩

end TerraFly

namespace TerraFly

theorem dictLookup_map_entry {α : Type} (l : List (String × α)) (k : String) (g : α → α) :
    dictLookup (l.map (fun e => if e.1 = k then (e.1, g e.2) else e)) k =
      (dictLookup l k).map g := by
  induction l with
  | nil => rfl
  | cons e rest ih =>
    by_cases he : e.1 = k
    · simp [dictLookup, List.find?, he]
    · simpa [dictLookup, List.find?, he] using ih

/-- C9 (amended): applying `update_vehicle_status` twice with identical
arguments is the same as applying it once at the second clock reading —
all fields except `last_updated` are unchanged by the repetition, and
`last_updated` carries the second call's clock (so the state after the
second call differs from the state after the first exactly in that
timestamp).  The route set (`flight_paths`) is never touched, so no new
route conflicts can arise. -/
theorem C9_update_idempotent_amended (s : SchedState) (vid : String) (loc : Point2)
    (bat : ℚ) (st : String) (pay : ℚ) (t1 t2 : ℚ) :
    update_vehicle_status (update_vehicle_status s vid loc bat st pay t1)
        vid loc bat st pay t2 =
      update_vehicle_status s vid loc bat st pay t2 ∧
    (update_vehicle_status s vid loc bat st pay t1).flight_paths = s.flight_paths := by
  constructor
  · by_cases h : (dictLookup s.vehicles vid).isSome
    · have h2 : (dictLookup
          (s.vehicles.map (fun e =>
            if e.1 = vid then
              (e.1, { e.2 with location := loc, battery := bat, status := st,
                               current_payload := pay, last_updated := t1 })
            else e)) vid).isSome = true := by
        rw [dictLookup_map_entry s.vehicles vid (fun w =>
          { w with location := loc, battery := bat, status := st,
                   current_payload := pay, last_updated := t1 })]
        cases hl : dictLookup s.vehicles vid with
        | none => rw [hl] at h; simp at h
        | some w => simp
      simp only [update_vehicle_status, h, if_true, h2]
      congr 1
      rw [List.map_map]
      apply List.map_congr_left
      intro e _
      by_cases he : e.1 = vid
      · simp [Function.comp, he]
      · simp [Function.comp, he]
    · have h0 : (dictLookup s.vehicles vid).isSome = false := by
        simpa using h
      simp [update_vehicle_status, h0]
  · by_cases h : (dictLookup s.vehicles vid).isSome
    · simp [update_vehicle_status, h]
    · simp [update_vehicle_status, h]

/-- C9 counterexample: two successive calls with identical data do change
the state relative to the first call — `last_updated` moves from the
first call's clock (10) to the second call's (20). -/
theorem C9_idempotence_counterexample :
    (dictLookup (update_vehicle_status (update_vehicle_status c9State "V1" (1, 2) 80 "idle" 0 10)
        "V1" (1, 2) 80 "idle" 0 20).vehicles "V1").map Vehicle.last_updated = some 20 ∧
    (dictLookup (update_vehicle_status c9State "V1" (1, 2) 80 "idle" 0 10).vehicles
        "V1").map Vehicle.last_updated = some 10 ∧
    update_vehicle_status (update_vehicle_status c9State "V1" (1, 2) 80 "idle" 0 10)
        "V1" (1, 2) 80 "idle" 0 20 ≠
      update_vehicle_status c9State "V1" (1, 2) 80 "idle" 0 10 := by
  refine ⟨?_, ?_, ?_⟩
  · norm_num +decide [update_vehicle_status, c9State, dictLookup, List.find?]
  · norm_num +decide [update_vehicle_status, c9State, dictLookup, List.find?]
  · intro hcon
    have h2 := congrArg
      (fun st2 => (dictLookup st2.vehicles "V1").map Vehicle.last_updated) hcon
    norm_num +decide [update_vehicle_status, c9State, dictLookup, List.find?] at h2

end TerraFly

namespace TerraFly

/-- C8 (code bug): `save_state` → `load_state` does not reproduce the
saved sets field-for-field.  `json.dump(..., default=str)` silently turns
tuples into JSON arrays and stringifies datetimes, enum members and
nested dataclasses, and `load_state` feeds those raw JSON values back
into the dataclass constructors without parsing: a reloaded vehicle's
`location` is a list, its `last_updated` a string, its `type` the text
`"VehicleType.CAR"`; a reloaded task's `start_point` is a repr string.
(The monitor loop then computes `now - vehicle.last_updated`, which
raises `TypeError` on the string, so the reloaded state cannot resume
scheduling as section 6 of the spec intends.) -/
theorem C8_roundtrip_not_identity :
    save_load_state [("CAR_1", car1Dyn)] [("T1", task1Dyn)] [("P1", point1Dyn)] =
      ([("CAR_1", jsonifyEntries car1Dyn)], [("T1", jsonifyEntries task1Dyn)],
       [("P1", jsonifyEntries point1Dyn)]) ∧
    dictLookup car1Dyn "location" = some (.tup [.num 22, .num 113]) ∧
    dictLookup (jsonifyEntries car1Dyn) "location" =
      some (.pylist [.num 22, .num 113]) ∧
    dictLookup car1Dyn "last_updated" = some (.datetime 0) ∧
    dictLookup (jsonifyEntries car1Dyn) "last_updated" =
      some (.str (pyStrOfDatetime 0)) ∧
    dictLookup car1Dyn "type" = some (.enumval "VehicleType" "CAR") ∧
    dictLookup (jsonifyEntries car1Dyn) "type" = some (.str "VehicleType.CAR") ∧
    dictLookup task1Dyn "start_point" = some (.obj "DeliveryPoint" point1Dyn) ∧
    dictLookup (jsonifyEntries task1Dyn) "start_point" =
      some (.str (pyStrOfObj "DeliveryPoint")) ∧
    dictLookup (jsonifyEntries point1Dyn) "location" =
      some (.pylist [.num 22, .num 113]) ∧
    save_load_registry [("CAR_1", car1Dyn)] ≠ [("CAR_1", car1Dyn)] ∧
    save_load_registry [("T1", task1Dyn)] ≠ [("T1", task1Dyn)] ∧
    save_load_registry [("P1", point1Dyn)] ≠ [("P1", point1Dyn)] := by
  refine ⟨rfl, ?_, ?_, ?_, ?_, ?_, ?_, ?_, ?_, ?_, ?_, ?_, ?_⟩
  · simp [dictLookup, List.find?, car1Dyn]
  · simp [dictLookup, List.find?, car1Dyn, jsonifyEntries, jsonify, jsonifyList]
  · simp [dictLookup, List.find?, car1Dyn]
  · simp [dictLookup, List.find?, car1Dyn, jsonifyEntries, jsonify, jsonifyList]
  · simp [dictLookup, List.find?, car1Dyn]
  · simp [dictLookup, List.find?, car1Dyn, jsonifyEntries, jsonify, jsonifyList,
      pyStrOfEnum]
  · simp [dictLookup, List.find?, task1Dyn]
  · simp [dictLookup, List.find?, task1Dyn, jsonifyEntries, jsonify, jsonifyList]
  · simp [dictLookup, List.find?, point1Dyn, jsonifyEntries, jsonify, jsonifyList]
  · intro hcon
    have h2 : jsonifyEntries car1Dyn = car1Dyn := by
      simpa [save_load_registry] using hcon
    have h4 := congrArg (fun d => dictLookup d "location") h2
    simp [dictLookup, List.find?, car1Dyn, jsonifyEntries, jsonify, jsonifyList] at h4
  · intro hcon
    have h2 : jsonifyEntries task1Dyn = task1Dyn := by
      simpa [save_load_registry] using hcon
    have h4 := congrArg (fun d => dictLookup d "priority") h2
    simp [dictLookup, List.find?, task1Dyn, jsonifyEntries, jsonify, jsonifyList] at h4
  · intro hcon
    have h2 : jsonifyEntries point1Dyn = point1Dyn := by
      simpa [save_load_registry] using hcon
    have h4 := congrArg (fun d => dictLookup d "location") h2
    simp [dictLookup, List.find?, point1Dyn, jsonifyEntries, jsonify, jsonifyList] at h4

end TerraFly

/-! ### Dijkstra correctness development -/

namespace TerraFly

theorem predGet_init (g : Graph) (v : Node) :
    predGet (g.map (fun e => (e.1, (none : Option Node)))) v = none := by
  induction g with
  | nil => rfl
  | cons e rest ih =>
    by_cases he : e.1 = v
    · simp [predGet, ndictLookup, List.find?, he]
    · simpa [predGet, ndictLookup, List.find?, he] using ih

theorem dijkstra_self (g : Graph) (s : Node) (hs : s ∈ graphNodes g) :
    dijkstra g s s = none := by
  unfold dijkstra
  rw [if_pos ⟨hs, hs⟩]
  rw [dijkstraLoop]
  simp [extractMin, predGet_init]

end TerraFly

namespace TerraFly

theorem pqLe_fst {a b : ℚ × Node} (h : pqLe a b = true) : a.1 ≤ b.1 := by
  unfold pqLe at h
  by_cases h1 : a.1 < b.1
  · exact le_of_lt h1
  · rw [if_neg h1] at h
    by_cases h2 : b.1 < a.1
    · rw [if_pos h2] at h
      exact absurd h (by simp)
    · exact le_of_not_lt h2

theorem pqLe_false_fst {a b : ℚ × Node} (h : pqLe a b = false) : b.1 ≤ a.1 := by
  unfold pqLe at h
  by_cases h1 : a.1 < b.1
  · rw [if_pos h1] at h
    exact absurd h (by simp)
  · exact le_of_not_lt h1

theorem extractMin_none {l : List (ℚ × Node)} (h : extractMin l = none) : l = [] := by
  cases l with
  | nil => rfl
  | cons a tail =>
    cases tail with
    | nil => simp [extractMin] at h
    | cons b rest2 =>
      simp only [extractMin] at h
      cases hrec : extractMin (b :: rest2) with
      | none => rw [hrec] at h; simp at h
      | some p =>
        rw [hrec] at h
        by_cases hle : pqLe a p.1 <;> simp [hle] at h

theorem extractMin_mem : ∀ {l : List (ℚ × Node)} {m : ℚ × Node} {rest : List (ℚ × Node)},
    extractMin l = some (m, rest) → m ∈ l := by
  intro l
  induction l with
  | nil => intro m rest h; simp [extractMin] at h
  | cons a tail ih =>
    intro m rest h
    cases tail with
    | nil =>
      simp only [extractMin, Option.some.injEq, Prod.mk.injEq] at h
      simp [← h.1]
    | cons b rest2 =>
      simp only [extractMin] at h
      cases hrec : extractMin (b :: rest2) with
      | none => simp [hrec] at h; simp [← h.1]
      | some p =>
        rw [hrec] at h
        by_cases hle : pqLe a p.1
        · simp only [hle, if_true, Option.some.injEq, Prod.mk.injEq] at h
          simp [← h.1]
        · simp only [hle, Bool.false_eq_true, if_false, Option.some.injEq,
            Prod.mk.injEq] at h
          have hm := @ih p.1 p.2 (by rw [hrec])
          rw [← h.1]
          exact List.mem_cons.mpr (Or.inr hm)

theorem extractMin_subset : ∀ {l : List (ℚ × Node)} {m : ℚ × Node} {rest : List (ℚ × Node)},
    extractMin l = some (m, rest) → ∀ y ∈ rest, y ∈ l := by
  intro l
  induction l with
  | nil => intro m rest h; simp [extractMin] at h
  | cons a tail ih =>
    intro m rest h y hy
    cases tail with
    | nil =>
      simp only [extractMin, Option.some.injEq, Prod.mk.injEq] at h
      rw [← h.2] at hy
      simp at hy
    | cons b rest2 =>
      simp only [extractMin] at h
      cases hrec : extractMin (b :: rest2) with
      | none =>
        simp [hrec] at h
        rw [← h.2] at hy
        exact List.mem_cons.mpr (Or.inr hy)
      | some p =>
        rw [hrec] at h
        by_cases hle : pqLe a p.1
        · simp only [hle, if_true, Option.some.injEq, Prod.mk.injEq] at h
          rw [← h.2] at hy
          exact List.mem_cons.mpr (Or.inr hy)
        · simp only [hle, Bool.false_eq_true, if_false, Option.some.injEq,
            Prod.mk.injEq] at h
          rw [← h.2] at hy
          rcases List.mem_cons.mp hy with rfl | hy2
          · simp
          · exact List.mem_cons.mpr (Or.inr (ih (by rw [hrec]) y hy2))

theorem extractMin_min_fst : ∀ {l : List (ℚ × Node)} {m : ℚ × Node}
    {rest : List (ℚ × Node)},
    extractMin l = some (m, rest) → ∀ y ∈ l, m.1 ≤ y.1 := by
  intro l
  induction l with
  | nil => intro m rest h; simp [extractMin] at h
  | cons a tail ih =>
    intro m rest h y hy
    cases tail with
    | nil =>
      simp only [extractMin, Option.some.injEq, Prod.mk.injEq] at h
      rcases List.mem_cons.mp hy with rfl | hy2
      · rw [← h.1]
      · simp at hy2
    | cons b rest2 =>
      simp only [extractMin] at h
      cases hrec : extractMin (b :: rest2) with
      | none => exact absurd (extractMin_none hrec) (by simp)
      | some p =>
        rw [hrec] at h
        by_cases hle : pqLe a p.1
        · simp only [hle, if_true, Option.some.injEq, Prod.mk.injEq] at h
          rcases List.mem_cons.mp hy with rfl | hy2
          · rw [← h.1]
          · have hp := @ih p.1 p.2 (by rw [hrec]) y hy2
            rw [← h.1]
            exact le_trans (pqLe_fst hle) hp
        · simp only [hle, Bool.false_eq_true, if_false, Option.some.injEq,
            Prod.mk.injEq] at h
          rcases List.mem_cons.mp hy with rfl | hy2
          · rw [← h.1]
            exact pqLe_false_fst (Bool.eq_false_iff.mpr hle)
          · have hp := @ih p.1 p.2 (by rw [hrec]) y hy2
            rw [← h.1]
            exact hp

theorem extractMin_ne_mem : ∀ {l : List (ℚ × Node)} {m : ℚ × Node}
    {rest : List (ℚ × Node)},
    extractMin l = some (m, rest) → ∀ y ∈ l, y ≠ m → y ∈ rest := by
  intro l
  induction l with
  | nil => intro m rest h; simp [extractMin] at h
  | cons a tail ih =>
    intro m rest h y hy hne
    cases tail with
    | nil =>
      simp only [extractMin, Option.some.injEq, Prod.mk.injEq] at h
      rcases List.mem_cons.mp hy with rfl | hy2
      · exact absurd h.1 hne
      · simp at hy2
    | cons b rest2 =>
      simp only [extractMin] at h
      cases hrec : extractMin (b :: rest2) with
      | none => exact absurd (extractMin_none hrec) (by simp)
      | some p =>
        rw [hrec] at h
        by_cases hle : pqLe a p.1
        · simp only [hle, if_true, Option.some.injEq, Prod.mk.injEq] at h
          rcases List.mem_cons.mp hy with rfl | hy2
          · exact absurd h.1 hne
          · rw [← h.2]; exact hy2
        · simp only [hle, Bool.false_eq_true, if_false, Option.some.injEq,
            Prod.mk.injEq] at h
          rcases List.mem_cons.mp hy with rfl | hy2
          · rw [← h.2]; simp
          · have := @ih p.1 p.2 (by rw [hrec]) y hy2 (by rw [← h.1] at hne; exact hne)
            rw [← h.2]
            exact List.mem_cons.mpr (Or.inr this)

end TerraFly

namespace TerraFly

theorem ndictLookup_replace_self {α : Type} (l : List (Node × α)) (k : Node) (v : α)
    (h : l.any (fun e => decide (e.1 = k)) = true) :
    ndictLookup (l.map (fun e => if e.1 = k then (k, v) else e)) k = some v := by
  induction l with
  | nil => simp at h
  | cons e rest ih =>
    by_cases he : e.1 = k
    · simp [ndictLookup, List.find?, he]
    · have h2 : rest.any (fun e => decide (e.1 = k)) = true := by
        simpa [List.any_cons, he] using h
      simpa [ndictLookup, List.find?, he] using ih h2

theorem ndictLookup_append_single {α : Type} (l : List (Node × α)) (k : Node) (v : α)
    (h : l.any (fun e => decide (e.1 = k)) = false) :
    ndictLookup (l ++ [(k, v)]) k = some v := by
  induction l with
  | nil => simp [ndictLookup, List.find?]
  | cons e rest ih =>
    have he : ¬ e.1 = k := by
      intro hc
      simp [List.any_cons, hc] at h
    have h2 : rest.any (fun e => decide (e.1 = k)) = false := by
      simpa [List.any_cons, he] using h
    simpa [ndictLookup, List.find?, he] using ih h2

theorem ndictLookup_ndictSet_self {α : Type} (l : List (Node × α)) (k : Node) (v : α) :
    ndictLookup (ndictSet l k v) k = some v := by
  unfold ndictSet
  by_cases h : l.any (fun e => decide (e.1 = k))
  · simpa [if_pos h] using ndictLookup_replace_self l k v h
  · simpa [if_neg h] using ndictLookup_append_single l k v (Bool.eq_false_iff.mpr h)

theorem ndictLookup_replace_ne {α : Type} (l : List (Node × α)) (k k2 : Node) (v : α)
    (hne : k2 ≠ k) :
    ndictLookup (l.map (fun e => if e.1 = k then (k, v) else e)) k2 = ndictLookup l k2 := by
  induction l with
  | nil => rfl
  | cons e rest ih =>
    by_cases he : e.1 = k
    · have hk2 : ¬ k = k2 := fun hc => hne hc.symm
      have hek2 : ¬ e.1 = k2 := by rw [he]; exact hk2
      simpa [ndictLookup, List.find?, he, hk2, hek2] using ih
    · by_cases he2 : e.1 = k2
      · unfold ndictLookup
        simp only [List.map_cons, if_neg he]
        rw [List.find?_cons_of_pos _ (by simpa using he2),
          List.find?_cons_of_pos _ (by simpa using he2)]
      · simpa [ndictLookup, List.find?, he, he2] using ih

theorem ndictLookup_ndictSet_ne {α : Type} (l : List (Node × α)) (k k2 : Node) (v : α)
    (hne : k2 ≠ k) : ndictLookup (ndictSet l k v) k2 = ndictLookup l k2 := by
  unfold ndictSet
  by_cases h : l.any (fun e => decide (e.1 = k))
  · simpa [if_pos h] using ndictLookup_replace_ne l k k2 v hne
  · simp only [if_neg h]
    have hk2 : ¬ k = k2 := fun hc => hne hc.symm
    induction l with
    | nil => simp [ndictLookup, List.find?, hk2]
    | cons e rest ih =>
      by_cases he2 : e.1 = k2
      · simp [ndictLookup, List.find?, he2]
      · have ihr := ih (by
          intro h2
          exact h (by simp [List.any_cons, h2]))
        simpa [ndictLookup, List.find?, he2] using ihr

theorem distGet_ndictSet_self (dist : DistMap) (k : Node) (d : Option ℚ) :
    distGet (ndictSet dist k d) k = d := by
  unfold distGet
  rw [ndictLookup_ndictSet_self]
  rfl

theorem distGet_ndictSet_ne (dist : DistMap) (k k2 : Node) (d : Option ℚ)
    (hne : k2 ≠ k) : distGet (ndictSet dist k d) k2 = distGet dist k2 := by
  unfold distGet
  rw [ndictLookup_ndictSet_ne _ _ _ _ hne]

theorem predGet_ndictSet_self (preds : PredMap) (k : Node) (p : Option Node) :
    predGet (ndictSet preds k p) k = p := by
  unfold predGet
  rw [ndictLookup_ndictSet_self]
  rfl

theorem predGet_ndictSet_ne (preds : PredMap) (k k2 : Node) (p : Option Node)
    (hne : k2 ≠ k) : predGet (ndictSet preds k p) k2 = predGet preds k2 := by
  unfold predGet
  rw [ndictLookup_ndictSet_ne _ _ _ _ hne]

theorem mem_graphNodes_isSome {g : Graph} {v : Node} (h : v ∈ graphNodes g) :
    (ndictLookup g v).isSome := by
  rcases List.mem_map.mp h with ⟨e, he, hev⟩
  unfold ndictLookup
  cases hf : g.find? (fun x => decide (x.1 = v)) with
  | none =>
    have := List.find?_eq_none.mp hf e he
    simp [hev] at this
  | some x => simp

theorem distGet_init_cases (g : Graph) (startNode v : Node) (d : ℚ)
    (h : distGet (g.map (fun e => (e.1, if e.1 = startNode then some (0 : ℚ) else none))) v
      = some d) : v = startNode ∧ d = 0 := by
  unfold distGet ndictLookup at h
  cases hf : (g.map (fun e => (e.1, if e.1 = startNode then some (0 : ℚ) else none))).find?
      (fun e => decide (e.1 = v)) with
  | none => rw [hf] at h; simp at h
  | some x =>
    rw [hf] at h
    have hp : x.1 = v := by simpa using List.find?_some hf
    have hin := List.mem_of_find?_eq_some hf
    rcases List.mem_map.mp hin with ⟨e, _, hex⟩
    simp only [Option.map_some', Option.getD_some] at h
    by_cases hes : e.1 = startNode
    · constructor
      · rw [← hp, ← hex]
        simpa [hes] using hes
      · rw [← hex] at h
        simp [hes] at h
        exact h.symm
    · rw [← hex] at h
      simp [hes] at h

theorem distGet_init_start (g : Graph) (startNode : Node)
    (h : startNode ∈ graphNodes g) :
    distGet (g.map (fun e => (e.1, if e.1 = startNode then some (0 : ℚ) else none)))
      startNode = some 0 := by
  unfold distGet ndictLookup
  rcases List.mem_map.mp h with ⟨e0, he0, hev⟩
  have hsome : ∃ x, (g.map (fun e => (e.1, if e.1 = startNode then some (0 : ℚ) else none))).find?
      (fun e => decide (e.1 = startNode)) = some x :=
    Option.isSome_iff_exists.mp (List.find?_isSome.mpr
      ⟨_, List.mem_map.mpr ⟨e0, he0, rfl⟩, by simpa using hev⟩)
  rcases hsome with ⟨x, hx⟩
  rw [hx]
  have hp : x.1 = startNode := by simpa using List.find?_some hx
  have hin := List.mem_of_find?_eq_some hx
  rcases List.mem_map.mp hin with ⟨e, _, hex⟩
  have he1 : e.1 = startNode := by
    rw [← hp, ← hex]
  rw [← hex]
  simp [he1]

theorem foldl_preserve {α β : Type} (P : β → Prop) (f : β → α → β) :
    ∀ (l : List α) (init : β), P init → (∀ st a, a ∈ l → P st → P (f st a)) →
      P (l.foldl f init) := by
  intro l
  induction l with
  | nil => intro init h _; exact h
  | cons a rest ih =>
    intro init h hstep
    exact ih (f init a) (hstep init a (by simp) h)
      (fun st b hb => hstep st b (List.mem_cons.mpr (Or.inr hb)))

theorem reach_nonneg {g : Graph} {s v : Node} {c : ℚ} (hnn : NonnegGraph g)
    (h : Reach g s v c) : 0 ≤ c := by
  induction h with
  | refl => exact le_refl 0
  | step hr he ih =>
    rcases he with ⟨sl, hmem⟩
    have hw := hnn _ _ hmem
    simp only at hw
    linarith

theorem reachvia_nil (g : Graph) (s v : Node) (c : ℚ)
    (h : ReachVia g [] s v c) : v = s ∧ c = 0 := by
  cases h with
  | refl => exact ⟨rfl, rfl⟩
  | step hr hm he => simp at hm

theorem reachvia_to_reach {g : Graph} {allowed : List Node} {s v : Node} {c : ℚ}
    (h : ReachVia g allowed s v c) : Reach g s v c := by
  induction h with
  | refl => exact Reach.refl
  | step hr hm he ih => exact Reach.step ih he

theorem reachvia_mono {g : Graph} {a1 a2 : List Node} {s v : Node} {c : ℚ}
    (hsub : ∀ x ∈ a1, x ∈ a2) (h : ReachVia g a1 s v c) : ReachVia g a2 s v c := by
  induction h with
  | refl => exact ReachVia.refl
  | step hr hm he ih => exact ReachVia.step ih (hsub _ hm) he

theorem reach_cut {g : Graph} {s v : Node} {c : ℚ} (hnn : NonnegGraph g)
    (visited : List Node) (h : Reach g s v c) :
    ReachVia g visited s v c ∨
      ∃ x cx, x ∉ visited ∧ ReachVia g visited s x cx ∧ cx ≤ c := by
  induction h with
  | refl => exact Or.inl ReachVia.refl
  | step hr he ih =>
    rename_i u v2 w c2
    have hw : 0 ≤ w := by
      rcases he with ⟨sl, hmem⟩
      have := hnn _ _ hmem
      simpa using this
    rcases ih with hvia | ⟨x, cx, hx, hvia, hle⟩
    · by_cases hu : u ∈ visited
      · exact Or.inl (ReachVia.step hvia hu he)
      · exact Or.inr ⟨u, c2, hu, hvia, by linarith⟩
    · exact Or.inr ⟨x, cx, hx, hvia, by linarith⟩

theorem seqcost_snoc {g : Graph} : ∀ {ns : List Node} {c : ℚ} {u v : Node} {w : ℚ},
    SeqCost g ns c → ns.getLast? = some u → EdgeTo g u v w →
    SeqCost g (ns ++ [v]) (c + w) := by
  intro ns c u v w hs
  induction hs with
  | single x =>
    intro hlast he
    have hx : x = u := by simpa using hlast
    rw [hx]
    have : SeqCost g [u, v] (w + 0) := SeqCost.cons he (SeqCost.single v)
    simpa [add_comm] using this
  | cons he2 hs2 ih =>
    rename_i x y rest w2 c2
    intro hlast he
    have hlast2 : (y :: rest).getLast? = some u := by
      rw [← hlast]
      simp [List.getLast?_cons_cons]
    have := SeqCost.cons he2 (ih hlast2 he)
    have harr : w2 + (c2 + w) = w2 + c2 + w := by ring
    simpa [harr] using this

theorem reach_trans {g : Graph} {s u v : Node} {c1 c2 : ℚ}
    (h1 : Reach g s u c1) (h2 : Reach g u v c2) : Reach g s v (c1 + c2) := by
  induction h2 with
  | refl => simpa using h1
  | step hr he ih =>
    rename_i u2 v2 w c3
    have := Reach.step ih he
    have harr : c1 + c3 + w = c1 + (c3 + w) := by ring
    rwa [harr] at this

theorem edge_to_reach {g : Graph} {u v : Node} {w : ℚ} (he : EdgeTo g u v w) :
    Reach g u v w := by
  have := Reach.step (Reach.refl : Reach g u u 0) he
  simpa using this

theorem seqcost_to_reach {g : Graph} : ∀ {ns : List Node} {c : ℚ},
    SeqCost g ns c → ∀ a b : Node, ns.head? = some a → ns.getLast? = some b →
    Reach g a b c := by
  intro ns c hs
  induction hs with
  | single x =>
    intro a b hh hl
    have hxa : x = a := by simpa using hh
    have hxb : x = b := by simpa using hl
    rw [← hxa, ← hxb]
    exact Reach.refl
  | cons he hs2 ih =>
    rename_i x y rest w2 c2
    intro a b hh hl
    have hxa : x = a := by simpa using hh
    have hl2 : (y :: rest).getLast? = some b := by
      rw [← hl]
      simp [List.getLast?_cons_cons]
    have hyb : Reach g y b c2 := ih y b (by simp) hl2
    have hxy : Reach g x y w2 := edge_to_reach he
    rw [← hxa]
    exact reach_trans hxy hyb
end TerraFly

namespace TerraFly

theorem ltOpt_false {a : ℚ} {o : Option ℚ} (h : ltOpt a o = false) :
    ∃ b, o = some b ∧ b ≤ a := by
  cases o with
  | none => simp [ltOpt] at h
  | some b =>
    refine ⟨b, rfl, ?_⟩
    simp [ltOpt] at h
    exact h

theorem relaxStep_eq_or (vis : List Node) (u : Node) (du : ℚ)
    (st : DistMap × PredMap × List (ℚ × Node)) (e : Node × ℚ × ℚ) :
    relaxStep vis u du st e = st ∨
    (e.1 ∉ vis ∧ ltOpt (du + e.2.1) (distGet st.1 e.1) = true ∧
      relaxStep vis u du st e =
        (ndictSet st.1 e.1 (some (du + e.2.1)), ndictSet st.2.1 e.1 (some u),
         st.2.2 ++ [(du + e.2.1, e.1)])) := by
  by_cases hmem : e.1 ∈ vis
  · left
    simp [relaxStep, hmem]
  · by_cases hlt : ltOpt (du + e.2.1) (distGet st.1 e.1) = true
    · right
      exact ⟨hmem, hlt, by simp [relaxStep, hmem, hlt]⟩
    · left
      simp only [Bool.not_eq_true] at hlt
      simp [relaxStep, hmem, hlt]

theorem relaxList_visited (vis : List Node) (u : Node) (du : ℚ) :
    ∀ (adj : List (Node × ℚ × ℚ)) (st0 : DistMap × PredMap × List (ℚ × Node)),
    ∀ v ∈ vis,
      distGet (adj.foldl (relaxStep vis u du) st0).1 v = distGet st0.1 v ∧
      predGet (adj.foldl (relaxStep vis u du) st0).2.1 v = predGet st0.2.1 v := by
  intro adj
  induction adj with
  | nil => intro st0 v _; exact ⟨rfl, rfl⟩
  | cons e rest ih =>
    intro st0 v hv
    rcases relaxStep_eq_or vis u du st0 e with heq | ⟨hnm, _, heq⟩
    · simpa [List.foldl_cons, heq] using ih st0 v hv
    · have hne : v ≠ e.1 := fun hc => hnm (hc ▸ hv)
      have := ih (relaxStep vis u du st0 e) v hv
      rw [List.foldl_cons]
      rw [this.1, this.2, heq]
      exact ⟨distGet_ndictSet_ne _ _ _ _ hne, predGet_ndictSet_ne _ _ _ _ hne⟩

theorem relaxList_mono (vis : List Node) (u : Node) (du : ℚ) :
    ∀ (adj : List (Node × ℚ × ℚ)) (st0 : DistMap × PredMap × List (ℚ × Node)),
    ∀ v d, distGet st0.1 v = some d →
      ∃ d2, distGet (adj.foldl (relaxStep vis u du) st0).1 v = some d2 ∧ d2 ≤ d := by
  intro adj
  induction adj with
  | nil => intro st0 v d h; exact ⟨d, h, le_refl d⟩
  | cons e rest ih =>
    intro st0 v d h
    rcases relaxStep_eq_or vis u du st0 e with heq | ⟨hnm, hlt, heq⟩
    · rw [List.foldl_cons, heq]
      exact ih st0 v d h
    · rw [List.foldl_cons, heq]
      by_cases hv : v = e.1
      · have hget : distGet (ndictSet st0.1 e.1 (some (du + e.2.1))) v
            = some (du + e.2.1) := by
          rw [hv]
          exact distGet_ndictSet_self _ _ _
        have hlt2 : du + e.2.1 < d := by
          rw [hv] at h
          rw [h] at hlt
          simpa [ltOpt] using hlt
        rcases ih (ndictSet st0.1 e.1 (some (du + e.2.1)),
            ndictSet st0.2.1 e.1 (some u), st0.2.2 ++ [(du + e.2.1, e.1)])
            v (du + e.2.1) hget with ⟨d2, hd2, hle⟩
        exact ⟨d2, hd2, le_trans hle (le_of_lt hlt2)⟩
      · have hget : distGet (ndictSet st0.1 e.1 (some (du + e.2.1))) v = some d := by
          rw [distGet_ndictSet_ne _ _ _ _ hv]
          exact h
        exact ih _ v d hget

theorem relaxList_dist_origin (vis : List Node) (u : Node) (du : ℚ) :
    ∀ (adj : List (Node × ℚ × ℚ)) (st0 : DistMap × PredMap × List (ℚ × Node)),
    ∀ v d, distGet (adj.foldl (relaxStep vis u du) st0).1 v = some d →
      (distGet st0.1 v = some d ∧
        predGet (adj.foldl (relaxStep vis u du) st0).2.1 v = predGet st0.2.1 v) ∨
      (v ∉ vis ∧ predGet (adj.foldl (relaxStep vis u du) st0).2.1 v = some u ∧
        ∃ w sl, (v, w, sl) ∈ adj ∧ d = du + w) := by
  intro adj
  induction adj with
  | nil => intro st0 v d h; exact Or.inl ⟨h, rfl⟩
  | cons e rest ih =>
    intro st0 v d h
    rw [List.foldl_cons] at h
    rcases relaxStep_eq_or vis u du st0 e with heq | ⟨hnm, hlt, heq⟩
    · rw [heq] at h
      rcases ih st0 v d h with ⟨h1, h2⟩ | ⟨h1, h2, w, sl, hm, hd⟩
      · rw [List.foldl_cons, heq]
        exact Or.inl ⟨h1, h2⟩
      · rw [List.foldl_cons, heq]
        exact Or.inr ⟨h1, h2, w, sl, List.mem_cons.mpr (Or.inr hm), hd⟩
    · rw [heq] at h
      by_cases hv : v = e.1
      · rcases ih _ v d h with ⟨h1, h2⟩ | ⟨h1, h2, w, sl, hm, hd⟩
        · have hd : d = du + e.2.1 := by
            rw [hv] at h1
            rw [distGet_ndictSet_self] at h1
            exact (Option.some.injEq _ _ ▸ h1).symm
          have hpred : predGet (ndictSet st0.2.1 e.1 (some u)) v = some u := by
            rw [hv]
            exact predGet_ndictSet_self _ _ _
          refine Or.inr ⟨hv ▸ hnm, ?_, e.2.1, e.2.2, ?_, hd⟩
          · rw [List.foldl_cons, heq, h2]
            exact hpred
          · rw [hv]
            exact List.mem_cons.mpr (Or.inl rfl)
        · exact Or.inr ⟨h1, by rw [List.foldl_cons, heq]; exact h2,
            w, sl, List.mem_cons.mpr (Or.inr hm), hd⟩
      · rcases ih _ v d h with ⟨h1, h2⟩ | ⟨h1, h2, w, sl, hm, hd⟩
        · rw [distGet_ndictSet_ne _ _ _ _ hv] at h1
          refine Or.inl ⟨h1, ?_⟩
          rw [List.foldl_cons, heq, h2]
          exact predGet_ndictSet_ne _ _ _ _ hv
        · exact Or.inr ⟨h1, by rw [List.foldl_cons, heq]; exact h2,
            w, sl, List.mem_cons.mpr (Or.inr hm), hd⟩

theorem relaxList_relaxed (vis : List Node) (u : Node) (du : ℚ) :
    ∀ (adj : List (Node × ℚ × ℚ)) (st0 : DistMap × PredMap × List (ℚ × Node)),
    ∀ e ∈ adj, e.1 ∉ vis →
      ∃ d2, distGet (adj.foldl (relaxStep vis u du) st0).1 e.1 = some d2 ∧
        d2 ≤ du + e.2.1 := by
  intro adj
  induction adj with
  | nil => intro st0 e he; simp at he
  | cons a rest ih =>
    intro st0 e he hnm
    rcases List.mem_cons.mp he with rfl | he2
    · by_cases hlt : ltOpt (du + e.2.1) (distGet st0.1 e.1) = true
      · have heq : relaxStep vis u du st0 e =
            (ndictSet st0.1 e.1 (some (du + e.2.1)), ndictSet st0.2.1 e.1 (some u),
             st0.2.2 ++ [(du + e.2.1, e.1)]) := by
          simp [relaxStep, hnm, hlt]
        have hget : distGet (relaxStep vis u du st0 e).1 e.1 = some (du + e.2.1) := by
          rw [heq]
          exact distGet_ndictSet_self _ _ _
        rw [List.foldl_cons]
        rcases relaxList_mono vis u du rest (relaxStep vis u du st0 e) e.1
            (du + e.2.1) hget with ⟨d2, hd2, hle⟩
        exact ⟨d2, hd2, hle⟩
      · have heq : relaxStep vis u du st0 e = st0 := by
          simp only [Bool.not_eq_true] at hlt
          simp [relaxStep, hnm, hlt]
        rcases ltOpt_false (Bool.eq_false_iff.mpr hlt) with ⟨c0, hc0, hle0⟩
        rw [List.foldl_cons, heq]
        rcases relaxList_mono vis u du rest st0 e.1 c0 hc0 with ⟨d2, hd2, hle⟩
        exact ⟨d2, hd2, le_trans hle hle0⟩
    · rw [List.foldl_cons]
      exact ih (relaxStep vis u du st0 a) e he2 hnm

theorem relaxList_pushes_mono (vis : List Node) (u : Node) (du : ℚ) :
    ∀ (adj : List (Node × ℚ × ℚ)) (st0 : DistMap × PredMap × List (ℚ × Node)),
    ∀ p ∈ st0.2.2, p ∈ (adj.foldl (relaxStep vis u du) st0).2.2 := by
  intro adj
  induction adj with
  | nil => intro st0 p hp; exact hp
  | cons e rest ih =>
    intro st0 p hp
    rw [List.foldl_cons]
    rcases relaxStep_eq_or vis u du st0 e with heq | ⟨_, _, heq⟩
    · rw [heq]; exact ih st0 p hp
    · refine ih _ p ?_
      rw [heq]
      exact List.mem_append.mpr (Or.inl hp)

theorem relaxList_pushes (vis : List Node) (u : Node) (du : ℚ) :
    ∀ (adj : List (Node × ℚ × ℚ)) (st0 : DistMap × PredMap × List (ℚ × Node)),
    ∀ p ∈ (adj.foldl (relaxStep vis u du) st0).2.2,
      p ∈ st0.2.2 ∨ (p.2 ∉ vis ∧ ∃ w sl, (p.2, w, sl) ∈ adj ∧ p.1 = du + w) := by
  intro adj
  induction adj with
  | nil => intro st0 p hp; exact Or.inl hp
  | cons e rest ih =>
    intro st0 p hp
    rw [List.foldl_cons] at hp
    rcases relaxStep_eq_or vis u du st0 e with heq | ⟨hnm, _, heq⟩
    · rw [heq] at hp
      rcases ih st0 p hp with h1 | ⟨h1, w, sl, hm, hd⟩
      · exact Or.inl h1
      · exact Or.inr ⟨h1, w, sl, List.mem_cons.mpr (Or.inr hm), hd⟩
    · rw [heq] at hp
      rcases ih _ p hp with h1 | ⟨h1, w, sl, hm, hd⟩
      · rcases List.mem_append.mp h1 with h2 | h2
        · exact Or.inl h2
        · have hpe : p = (du + e.2.1, e.1) := by simpa using h2
          refine Or.inr ⟨by rw [hpe]; exact hnm, e.2.1, e.2.2, ?_, by rw [hpe]⟩
          rw [hpe]
          exact List.mem_cons.mpr (Or.inl rfl)
      · exact Or.inr ⟨h1, w, sl, List.mem_cons.mpr (Or.inr hm), hd⟩

theorem relaxList_pred_origin (vis : List Node) (u : Node) (du : ℚ) :
    ∀ (adj : List (Node × ℚ × ℚ)) (st0 : DistMap × PredMap × List (ℚ × Node)),
    ∀ v u2, predGet (adj.foldl (relaxStep vis u du) st0).2.1 v = some u2 →
      (predGet st0.2.1 v = some u2 ∧
        distGet (adj.foldl (relaxStep vis u du) st0).1 v = distGet st0.1 v) ∨
      (u2 = u ∧ v ∉ vis ∧ ∃ w sl, (v, w, sl) ∈ adj ∧
        distGet (adj.foldl (relaxStep vis u du) st0).1 v = some (du + w)) := by
  intro adj
  induction adj with
  | nil => intro st0 v u2 h; exact Or.inl ⟨h, rfl⟩
  | cons e rest ih =>
    intro st0 v u2 h
    rw [List.foldl_cons] at h
    rcases relaxStep_eq_or vis u du st0 e with heq | ⟨hnm, hlt, heq⟩
    · rw [heq] at h
      rcases ih st0 v u2 h with ⟨h1, h2⟩ | ⟨h1, h2, w, sl, hm, hd⟩
      · rw [List.foldl_cons, heq]
        exact Or.inl ⟨h1, h2⟩
      · rw [List.foldl_cons, heq]
        exact Or.inr ⟨h1, h2, w, sl, List.mem_cons.mpr (Or.inr hm), hd⟩
    · by_cases hv : v = e.1
      · rcases ih _ v u2 h with ⟨h1, h2⟩ | ⟨h1, h2, w, sl, hm, hd⟩
        · have hu2 : u2 = u := by
            rw [hv] at h1
            rw [heq] at h1
            rw [predGet_ndictSet_self] at h1
            exact (Option.some.injEq _ _ ▸ h1.symm)
          have hdist : distGet (rest.foldl (relaxStep vis u du)
              (relaxStep vis u du st0 e)).1 v = some (du + e.2.1) := by
            rw [h2, heq, hv]
            exact distGet_ndictSet_self _ _ _
          refine Or.inr ⟨hu2, hv ▸ hnm, e.2.1, e.2.2, ?_, ?_⟩
          · rw [hv]
            exact List.mem_cons.mpr (Or.inl rfl)
          · rw [List.foldl_cons]
            exact hdist
        · exact Or.inr ⟨h1, h2, w, sl, List.mem_cons.mpr (Or.inr hm),
            by rw [List.foldl_cons]; exact hd⟩
      · rcases ih _ v u2 h with ⟨h1, h2⟩ | ⟨h1, h2, w, sl, hm, hd⟩
        · rw [heq] at h1
          rw [predGet_ndictSet_ne _ _ _ _ hv] at h1
          refine Or.inl ⟨h1, ?_⟩
          rw [List.foldl_cons, h2, heq]
          exact distGet_ndictSet_ne _ _ _ _ hv
        · exact Or.inr ⟨h1, h2, w, sl, List.mem_cons.mpr (Or.inr hm),
            by rw [List.foldl_cons]; exact hd⟩

theorem relaxList_cover (vis : List Node) (u : Node) (du : ℚ) :
    ∀ (adj : List (Node × ℚ × ℚ)) (st0 : DistMap × PredMap × List (ℚ × Node)),
    ∀ v d, distGet (adj.foldl (relaxStep vis u du) st0).1 v = some d →
      distGet st0.1 v = some d ∨ (d, v) ∈ (adj.foldl (relaxStep vis u du) st0).2.2 := by
  intro adj
  induction adj with
  | nil => intro st0 v d h; exact Or.inl h
  | cons e rest ih =>
    intro st0 v d h
    rw [List.foldl_cons] at h
    rcases relaxStep_eq_or vis u du st0 e with heq | ⟨hnm, hlt, heq⟩
    · rw [heq] at h
      rcases ih st0 v d h with h1 | h1
      · exact Or.inl h1
      · rw [List.foldl_cons, heq]
        exact Or.inr h1
    · by_cases hv : v = e.1
      · rcases ih _ v d h with h1 | h1
        · rw [heq, hv] at h1
          rw [distGet_ndictSet_self] at h1
          have hd : d = du + e.2.1 := (Option.some.injEq _ _ ▸ h1).symm
          have hpush : (d, v) ∈ (relaxStep vis u du st0 e).2.2 := by
            rw [heq, hd, hv]
            simp
          rw [List.foldl_cons]
          exact Or.inr (relaxList_pushes_mono vis u du rest _ _ hpush)
        · rw [List.foldl_cons]
          exact Or.inr h1
      · rcases ih _ v d h with h1 | h1
        · rw [heq] at h1
          rw [distGet_ndictSet_ne _ _ _ _ hv] at h1
          exact Or.inl h1
        · rw [List.foldl_cons]
          exact Or.inr h1

end TerraFly

namespace TerraFly

theorem dijkstraLoop_empty (g : Graph) (endNode : Node) (dist : DistMap)
    (preds : PredMap) (visited : List Node) (pq : List (ℚ × Node))
    (h : extractMin pq = none) :
    dijkstraLoop g endNode dist preds visited pq = some (dist, preds) := by
  rw [dijkstraLoop]
  split
  · rfl
  · rename_i m pq2 hpop
    rw [h] at hpop
    cases hpop

theorem dijkstraLoop_break (g : Graph) (endNode : Node) (dist : DistMap)
    (preds : PredMap) (visited : List Node) (pq : List (ℚ × Node))
    (m : ℚ × Node) (pq2 : List (ℚ × Node))
    (hpop : extractMin pq = some (m, pq2)) (hm : m.2 = endNode) :
    dijkstraLoop g endNode dist preds visited pq = some (dist, preds) := by
  rw [dijkstraLoop]
  split
  · rfl
  · rename_i m2 pq3 hpop2
    rw [hpop] at hpop2
    obtain ⟨hme, hpe⟩ : m = m2 ∧ pq2 = pq3 := by
      simpa [Prod.ext_iff] using hpop2
    subst hme
    subst hpe
    rw [if_pos hm]

theorem dijkstraLoop_stale (g : Graph) (endNode : Node) (dist : DistMap)
    (preds : PredMap) (visited : List Node) (pq : List (ℚ × Node))
    (m : ℚ × Node) (pq2 : List (ℚ × Node))
    (hpop : extractMin pq = some (m, pq2)) (hne : ¬ m.2 = endNode)
    (hv : m.2 ∈ visited) :
    dijkstraLoop g endNode dist preds visited pq =
      dijkstraLoop g endNode dist preds visited pq2 := by
  rw [dijkstraLoop]
  split
  · rename_i hpop2
    rw [hpop2] at hpop
    cases hpop
  · rename_i m2 pq3 hpop2
    rw [hpop] at hpop2
    obtain ⟨hme, hpe⟩ : m = m2 ∧ pq2 = pq3 := by
      simpa [Prod.ext_iff] using hpop2
    subst hme
    subst hpe
    rw [if_neg hne, dif_pos hv]

theorem dijkstraLoop_keyerr (g : Graph) (endNode : Node) (dist : DistMap)
    (preds : PredMap) (visited : List Node) (pq : List (ℚ × Node))
    (m : ℚ × Node) (pq2 : List (ℚ × Node))
    (hpop : extractMin pq = some (m, pq2)) (hne : ¬ m.2 = endNode)
    (hnv : m.2 ∉ visited) (hadj : ndictLookup g m.2 = none) :
    dijkstraLoop g endNode dist preds visited pq = none := by
  rw [dijkstraLoop]
  split
  · rename_i hpop2
    rw [hpop2] at hpop
    cases hpop
  · rename_i m2 pq3 hpop2
    rw [hpop] at hpop2
    obtain ⟨hme, hpe⟩ : m = m2 ∧ pq2 = pq3 := by
      simpa [Prod.ext_iff] using hpop2
    subst hme
    subst hpe
    rw [if_neg hne, dif_neg hnv]
    split
    · rfl
    · rename_i adj hadj2
      rw [hadj] at hadj2
      cases hadj2

theorem dijkstraLoop_visit (g : Graph) (endNode : Node) (dist : DistMap)
    (preds : PredMap) (visited : List Node) (pq : List (ℚ × Node))
    (m : ℚ × Node) (pq2 : List (ℚ × Node)) (adj : List (Node × ℚ × ℚ))
    (hpop : extractMin pq = some (m, pq2)) (hne : ¬ m.2 = endNode)
    (hnv : m.2 ∉ visited) (hadj : ndictLookup g m.2 = some adj) :
    dijkstraLoop g endNode dist preds visited pq =
      dijkstraLoop g endNode
        (relaxAll (m.2 :: visited) m.2 m.1 dist preds adj).1
        (relaxAll (m.2 :: visited) m.2 m.1 dist preds adj).2.1
        (m.2 :: visited)
        (pq2 ++ (relaxAll (m.2 :: visited) m.2 m.1 dist preds adj).2.2) := by
  rw [dijkstraLoop]
  split
  · rename_i hpop2
    rw [hpop2] at hpop
    cases hpop
  · rename_i m2 pq3 hpop2
    rw [hpop] at hpop2
    obtain ⟨hme, hpe⟩ : m = m2 ∧ pq2 = pq3 := by
      simpa [Prod.ext_iff] using hpop2
    subst hme
    subst hpe
    rw [if_neg hne, dif_neg hnv]
    split
    · rename_i hadj2
      rw [hadj] at hadj2
      cases hadj2
    · rename_i adj2 hadj2
      rw [hadj] at hadj2
      obtain rfl : adj = adj2 := by simpa using hadj2
      rfl

end TerraFly


namespace TerraFly

theorem dijkstraLoop_spec (g : Graph) (startNode endNode : Node)
    (hnn : NonnegGraph g) (hcl : ClosedGraph g) :
    ∀ (dist : DistMap) (preds : PredMap) (visited : List Node) (pq : List (ℚ × Node)),
    DijkInv g startNode dist preds visited pq →
    ∃ dist2 preds2 visited2,
      dijkstraLoop g endNode dist preds visited pq = some (dist2, preds2) ∧
      DijkPost g startNode endNode dist2 preds2 visited2 := by
  intro dist preds visited pq
  induction dist, preds, visited, pq using dijkstraLoop.induct g endNode with
  | case1 dist preds visited pq hpop =>
    intro hinv
    have hpq : pq = [] := extractMin_none hpop
    refine ⟨dist, preds, visited,
      dijkstraLoop_empty g endNode dist preds visited pq hpop, ?_⟩
    refine ⟨hinv.dist_sound, hinv.pred_sound, hinv.pred_cover, hinv.pred_order,
      hinv.visited_nodup, hinv.visited_nodes, hinv.start_zero, ?_⟩
    intro c hc
    rcases reach_cut hnn visited hc with hvia | ⟨x, cx, hx, hvia, hxle⟩
    · obtain ⟨d2, hd2, hd2le⟩ := hinv.via_dom _ _ hvia
      exact ⟨d2, hd2, hd2le⟩
    · obtain ⟨dx, hdx, hdxle⟩ := hinv.via_dom x cx hvia
      rcases hinv.dist_cover x dx hdx with hxv | hxpq
      · exact absurd hxv hx
      · rw [hpq] at hxpq
        simp at hxpq
  | case2 dist preds visited pq m pq2 hpop hm =>
    intro hinv
    refine ⟨dist, preds, visited,
      dijkstraLoop_break g endNode dist preds visited pq m pq2 hpop hm, ?_⟩
    refine ⟨hinv.dist_sound, hinv.pred_sound, hinv.pred_cover, hinv.pred_order,
      hinv.visited_nodup, hinv.visited_nodes, hinv.start_zero, ?_⟩
    intro c hc
    rcases reach_cut hnn visited hc with hvia | ⟨x, cx, hx, hvia, hxle⟩
    · obtain ⟨d2, hd2, hd2le⟩ := hinv.via_dom _ _ hvia
      exact ⟨d2, hd2, hd2le⟩
    · obtain ⟨dx, hdx, hdxle⟩ := hinv.via_dom x cx hvia
      rcases hinv.dist_cover x dx hdx with hxv | hxpq
      · exact absurd hxv hx
      · have hmle : m.1 ≤ dx := extractMin_min_fst hpop (dx, x) hxpq
        obtain ⟨dE, hdE, hdEle⟩ := hinv.pq_dom m (extractMin_mem hpop)
        rw [hm] at hdE
        exact ⟨dE, hdE, by linarith⟩
  | case3 dist preds visited pq m pq2 hpop hne hv ih =>
    intro hinv
    have hsub := extractMin_subset hpop
    have hinv2 : DijkInv g startNode dist preds visited pq2 := by
      refine ⟨hinv.dist_sound, fun e he => hinv.pq_sound e (hsub e he),
        fun e he => hinv.pq_dom e (hsub e he), ?_, hinv.visited_min,
        hinv.visited_relaxed, hinv.pred_sound, hinv.start_zero, hinv.pred_cover,
        hinv.pred_order, hinv.visited_nodup, hinv.visited_nodes,
        fun e he => hinv.pq_nodes e (hsub e he), hinv.via_dom⟩
      intro v d hd
      rcases hinv.dist_cover v d hd with hvv | hvpq
      · exact Or.inl hvv
      · by_cases hdm : (d, v) = m
        · have hvm : v = m.2 := by rw [← hdm]
          exact Or.inl (hvm ▸ hv)
        · exact Or.inr (extractMin_ne_mem hpop _ hvpq hdm)
    obtain ⟨d2, p2, v2, heq, hpost⟩ := ih hinv2
    refine ⟨d2, p2, v2, ?_, hpost⟩
    rw [dijkstraLoop_stale g endNode dist preds visited pq m pq2 hpop hne hv]
    exact heq
  | case4 dist preds visited pq m pq2 hpop hne hnv hadj =>
    intro hinv
    have hmem : m.2 ∈ graphNodes g := hinv.pq_nodes m (extractMin_mem hpop)
    have hiss := mem_graphNodes_isSome hmem
    rw [hadj] at hiss
    simp at hiss
  | case5 dist preds visited pq m pq2 hpop hne hnv adj hadj st ih =>
    intro hinv
    have hm_mem : m ∈ pq := extractMin_mem hpop
    have hreach_u : Reach g startNode m.2 m.1 := hinv.pq_sound m hm_mem
    obtain ⟨du0, hdu0, hdu0le⟩ := hinv.pq_dom m hm_mem
    have hdu0pq : (du0, m.2) ∈ pq := (hinv.dist_cover m.2 du0 hdu0).resolve_left hnv
    have hle2 : m.1 ≤ du0 := extractMin_min_fst hpop (du0, m.2) hdu0pq
    have hKEY1 : distGet dist m.2 = some m.1 := by
      rw [hdu0]
      congr 1
      linarith
    have hKEY2 : ∀ c, Reach g startNode m.2 c → m.1 ≤ c := by
      intro c hc
      rcases reach_cut hnn visited hc with hvia | ⟨x, cx, hx, hvia, hxle⟩
      · obtain ⟨d2, hd2, hd2le⟩ := hinv.via_dom _ _ hvia
        rw [hKEY1] at hd2
        have hde : m.1 = d2 := Option.some.inj hd2
        linarith [hde ▸ hd2le]
      · obtain ⟨dx, hdx, hdxle⟩ := hinv.via_dom x cx hvia
        have hxpq : (dx, x) ∈ pq := (hinv.dist_cover x dx hdx).resolve_left hx
        have hmle : m.1 ≤ dx := extractMin_min_fst hpop (dx, x) hxpq
        linarith
    have hadjget : adjGet g m.2 = adj := by
      unfold adjGet
      rw [hadj]
      rfl
    have hstdef : st = adj.foldl (relaxStep (m.2 :: visited) m.2 m.1)
        (dist, preds, []) := rfl
    have hL1 := relaxList_visited (m.2 :: visited) m.2 m.1 adj (dist, preds, [])
    have hL2 := relaxList_mono (m.2 :: visited) m.2 m.1 adj (dist, preds, [])
    have hL3 := relaxList_dist_origin (m.2 :: visited) m.2 m.1 adj (dist, preds, [])
    have hL4 := relaxList_relaxed (m.2 :: visited) m.2 m.1 adj (dist, preds, [])
    have hL5 := relaxList_pushes (m.2 :: visited) m.2 m.1 adj (dist, preds, [])
    have hL6 := relaxList_pred_origin (m.2 :: visited) m.2 m.1 adj (dist, preds, [])
    have hL7 := relaxList_cover (m.2 :: visited) m.2 m.1 adj (dist, preds, [])
    rw [← hstdef] at hL1 hL2 hL3 hL4 hL5 hL6 hL7
    have hKEY1u : distGet st.1 m.2 = some m.1 := by
      rw [(hL1 m.2 (List.mem_cons_self m.2 visited)).1]
      exact hKEY1
    have hsub := extractMin_subset hpop
    have hedge_of_adj : ∀ e ∈ adj, EdgeTo g m.2 e.1 e.2.1 := by
      intro e he
      refine ⟨e.2.2, ?_⟩
      rw [hadjget]
      simpa using he
    have hdist_sound2 : ∀ v d, distGet st.1 v = some d → Reach g startNode v d := by
      intro v d hd
      rcases hL3 v d hd with ⟨h1, _⟩ | ⟨_, _, w, sl, hw, rfl⟩
      · exact hinv.dist_sound v d h1
      · refine Reach.step hreach_u ⟨sl, ?_⟩
        rw [hadjget]
        exact hw
    have hstart_zero2 : distGet st.1 startNode = some 0 := by
      by_cases hsv : startNode ∈ m.2 :: visited
      · rw [(hL1 startNode hsv).1]
        exact hinv.start_zero
      · obtain ⟨d2, hd2, hd2le⟩ := hL2 startNode 0 hinv.start_zero
        rcases hL3 startNode d2 hd2 with ⟨h1, _⟩ | ⟨_, _, w, sl, hw, hdw⟩
        · rw [hinv.start_zero] at h1
          have h0 : (0 : ℚ) = d2 := Option.some.inj h1
          rw [← h0] at hd2
          exact hd2
        · have hw0 : 0 ≤ w := by
            have := hnn m.2 (startNode, w, sl) (by rw [hadjget]; exact hw)
            simpa using this
          have hm0 : 0 ≤ m.1 := reach_nonneg hnn hreach_u
          have hz : d2 = 0 := le_antisymm hd2le (by rw [hdw]; linarith)
          rw [hz] at hd2
          exact hd2
    have hrel2 : ∀ u2 ∈ m.2 :: visited, ∀ entry ∈ adjGet g u2,
        ∃ du2 dv2, distGet st.1 u2 = some du2 ∧ distGet st.1 entry.1 = some dv2 ∧
          dv2 ≤ du2 + entry.2.1 := by
      intro u2 hu2 entry hentry
      rcases List.mem_cons.mp hu2 with rfl | hu2v
      · rw [hadjget] at hentry
        by_cases hev : entry.1 ∈ m.2 :: visited
        · rcases List.mem_cons.mp hev with hem | hevv
          · refine ⟨m.1, m.1, hKEY1u, hem ▸ hKEY1u, ?_⟩
            have := hnn m.2 entry (by rw [hadjget]; exact hentry)
            linarith
          · obtain ⟨dv, hdv, hminv⟩ := hinv.visited_min entry.1 hevv
            have hreachv : Reach g startNode entry.1 (m.1 + entry.2.1) :=
              Reach.step hreach_u (hedge_of_adj entry hentry)
            refine ⟨m.1, dv, hKEY1u, ?_, hminv _ hreachv⟩
            rw [(hL1 entry.1 (List.mem_cons_of_mem _ hevv)).1]
            exact hdv
        · obtain ⟨d2, hd2, hd2le⟩ := hL4 entry hentry hev
          exact ⟨m.1, d2, hKEY1u, hd2, hd2le⟩
      · obtain ⟨du2, dv2, h1, h2, hle3⟩ := hinv.visited_relaxed u2 hu2v entry hentry
        obtain ⟨dv3, hdv3, hdv3le⟩ := hL2 entry.1 dv2 h2
        refine ⟨du2, dv3, ?_, hdv3, by linarith⟩
        rw [(hL1 u2 hu2).1]
        exact h1
    have hvia2 : ∀ v c, ReachVia g (m.2 :: visited) startNode v c →
        ∃ d2, distGet st.1 v = some d2 ∧ d2 ≤ c := by
      intro v c hvia
      induction hvia with
      | refl => exact ⟨0, hstart_zero2, le_refl 0⟩
      | step hr hmem2 he ih2 =>
        rename_i u2 v2 w c2
        obtain ⟨d2, hd2, hd2le⟩ := ih2
        obtain ⟨sl, hsl⟩ := he
        obtain ⟨du3, dv3, h1, h2, hle3⟩ := hrel2 u2 hmem2 (v2, w, sl) hsl
        have hdd : du3 = d2 := by
          rw [h1] at hd2
          exact Option.some.inj hd2
        refine ⟨dv3, h2, ?_⟩
        rw [hdd] at hle3
        linarith
    have hinv2 : DijkInv g startNode st.1 st.2.1 (m.2 :: visited) (pq2 ++ st.2.2) := by
      refine ⟨hdist_sound2, ?_, ?_, ?_, ?_, hrel2, ?_, hstart_zero2, ?_, ?_, ?_, ?_, ?_,
        hvia2⟩
      · intro e he
        rcases List.mem_append.mp he with h1 | h1
        · exact hinv.pq_sound e (hsub e h1)
        · rcases hL5 e h1 with h2 | ⟨hnm2, w, sl, hw, hdw⟩
          · simp at h2
          · have hre := Reach.step hreach_u (hedge_of_adj (e.2, w, sl) hw)
            rw [hdw]
            exact hre
      · intro e he
        rcases List.mem_append.mp he with h1 | h1
        · obtain ⟨d2, hd2, hd2le⟩ := hinv.pq_dom e (hsub e h1)
          obtain ⟨d3, hd3, hd3le⟩ := hL2 e.2 d2 hd2
          exact ⟨d3, hd3, by linarith⟩
        · rcases hL5 e h1 with h2 | ⟨hnm2, w, sl, hw, hdw⟩
          · simp at h2
          · obtain ⟨d3, hd3, hd3le⟩ := hL4 (e.2, w, sl) hw hnm2
            refine ⟨d3, hd3, ?_⟩
            rw [hdw]
            exact hd3le
      · intro v d hd
        rcases hL7 v d hd with h1 | h1
        · rcases hinv.dist_cover v d h1 with h2 | h2
          · exact Or.inl (List.mem_cons_of_mem _ h2)
          · by_cases hdm : (d, v) = m
            · have hvm : v = m.2 := by rw [← hdm]
              exact Or.inl (hvm ▸ List.mem_cons_self m.2 visited)
            · exact Or.inr (List.mem_append.mpr
                (Or.inl (extractMin_ne_mem hpop _ h2 hdm)))
        · exact Or.inr (List.mem_append.mpr (Or.inr h1))
      · intro v hv2
        rcases List.mem_cons.mp hv2 with rfl | hvv
        · exact ⟨m.1, hKEY1u, hKEY2⟩
        · obtain ⟨dv, hdv, hminv⟩ := hinv.visited_min v hvv
          refine ⟨dv, ?_, hminv⟩
          rw [(hL1 v (List.mem_cons_of_mem _ hvv)).1]
          exact hdv
      · intro v u2 hp
        rcases hL6 v u2 hp with ⟨h1, h2⟩ | ⟨rfl, hvnm, w, sl, hw, hdv⟩
        · obtain ⟨hu2v, w, du2, hedge, hdu2, hdv2⟩ := hinv.pred_sound v u2 h1
          refine ⟨List.mem_cons_of_mem _ hu2v, w, du2, hedge, ?_, ?_⟩
          · rw [(hL1 u2 (List.mem_cons_of_mem _ hu2v)).1]
            exact hdu2
          · rw [h2]
            exact hdv2
        · refine ⟨List.mem_cons_self _ _, w, m.1, ⟨sl, ?_⟩, hKEY1u, hdv⟩
          rw [hadjget]
          exact hw
      · intro v d hd
        rcases hL3 v d hd with ⟨h1, h2⟩ | ⟨_, hpredu, _⟩
        · rcases hinv.pred_cover v d h1 with h2v | ⟨u2, hu2⟩
          · exact Or.inl h2v
          · refine Or.inr ⟨u2, ?_⟩
            rw [h2]
            exact hu2
        · exact Or.inr ⟨m.2, hpredu⟩
      · intro v u2 hp
        rcases hL6 v u2 hp with ⟨h1, _⟩ | ⟨_, hvnm, _⟩
        · rcases hinv.pred_order v u2 h1 with hnvv | ⟨l1, l2, hsplit, hu2l2⟩
          · by_cases hvm : v = m.2
            · refine Or.inr ⟨[], visited, by simp [hvm], ?_⟩
              exact (hinv.pred_sound v u2 h1).1
            · refine Or.inl ?_
              intro hc
              rcases List.mem_cons.mp hc with h3 | h3
              · exact hvm h3
              · exact hnvv h3
          · refine Or.inr ⟨m.2 :: l1, l2, ?_, hu2l2⟩
            rw [hsplit]
            rfl
        · exact Or.inl hvnm
      · exact List.nodup_cons.mpr ⟨hnv, hinv.visited_nodup⟩
      · intro v hv2
        rcases List.mem_cons.mp hv2 with rfl | hvv
        · exact hinv.pq_nodes m hm_mem
        · exact hinv.visited_nodes v hvv
      · intro e he
        rcases List.mem_append.mp he with h1 | h1
        · exact hinv.pq_nodes e (hsub e h1)
        · rcases hL5 e h1 with h2 | ⟨_, w, sl, hw, _⟩
          · simp at h2
          · have := hcl m.2 (e.2, w, sl) (by rw [hadjget]; exact hw)
            simpa using this
    obtain ⟨d2, p2, v2, heq, hpost⟩ := ih hinv2
    refine ⟨d2, p2, v2, ?_, hpost⟩
    rw [dijkstraLoop_visit g endNode dist preds visited pq m pq2 adj hpop hne hnv hadj]
    exact heq

end TerraFly

namespace TerraFly

theorem nodup_middle_unique {α : Type} {v : α} :
    ∀ {l1 l2 l1' l2' : List α}, (l1 ++ v :: l2).Nodup →
    l1 ++ v :: l2 = l1' ++ v :: l2' → l1 = l1' ∧ l2 = l2' := by
  intro l1
  induction l1 with
  | nil =>
    intro l2 l1' l2' hnd heq
    cases l1' with
    | nil =>
      simp only [List.nil_append] at heq
      exact ⟨rfl, (List.cons.injEq _ _ _ _ ▸ heq).2⟩
    | cons a t' =>
      simp only [List.nil_append, List.cons_append] at heq
      have hva : v = a := (List.cons.injEq _ _ _ _ ▸ heq).1
      have hrest : l2 = t' ++ v :: l2' := (List.cons.injEq _ _ _ _ ▸ heq).2
      have hvl2 : v ∈ l2 := by
        rw [hrest]
        exact List.mem_append.mpr (Or.inr (List.mem_cons_self _ _))
      have := (List.nodup_cons.mp (by simpa using hnd)).1
      exact absurd hvl2 this
  | cons a t ih =>
    intro l2 l1' l2' hnd heq
    cases l1' with
    | nil =>
      simp only [List.nil_append, List.cons_append] at heq
      have hav : a = v := (List.cons.injEq _ _ _ _ ▸ heq).1
      have hrest : t ++ v :: l2 = l2' := (List.cons.injEq _ _ _ _ ▸ heq).2
      have hnd2 : (a :: (t ++ v :: l2)).Nodup := by simpa using hnd
      have hvin : v ∈ t ++ v :: l2 :=
        List.mem_append.mpr (Or.inr (List.mem_cons_self _ _))
      have := (List.nodup_cons.mp hnd2).1
      rw [hav] at this
      exact absurd hvin this
    | cons b t' =>
      simp only [List.cons_append] at heq
      have hab : a = b := (List.cons.injEq _ _ _ _ ▸ heq).1
      have hrest : t ++ v :: l2 = t' ++ v :: l2' := (List.cons.injEq _ _ _ _ ▸ heq).2
      have hnd2 : (t ++ v :: l2).Nodup := by
        have : (a :: (t ++ v :: l2)).Nodup := by simpa using hnd
        exact (List.nodup_cons.mp this).2
      obtain ⟨h1, h2⟩ := ih hnd2 hrest
      exact ⟨by rw [hab, h1], h2⟩

theorem dijkstra_init_inv (g : Graph) (startNode : Node)
    (hs : startNode ∈ graphNodes g) :
    DijkInv g startNode
      (g.map (fun e => (e.1, if e.1 = startNode then some (0 : ℚ) else none)))
      (g.map (fun e => (e.1, (none : Option Node))))
      [] [(0, startNode)] := by
  refine ⟨?_, ?_, ?_, ?_, ?_, ?_, ?_, ?_, ?_, ?_, ?_, ?_, ?_, ?_⟩
  · intro v d hd
    obtain ⟨rfl, rfl⟩ := distGet_init_cases g startNode v d hd
    exact Reach.refl
  · intro e he
    have : e = (0, startNode) := by simpa using he
    rw [this]
    exact Reach.refl
  · intro e he
    have he2 : e = (0, startNode) := by simpa using he
    rw [he2]
    exact ⟨0, distGet_init_start g startNode hs, le_refl 0⟩
  · intro v d hd
    obtain ⟨rfl, rfl⟩ := distGet_init_cases g startNode v d hd
    exact Or.inr (by simp)
  · intro v hv
    simp at hv
  · intro u hu
    simp at hu
  · intro v u hp
    rw [predGet_init] at hp
    cases hp
  · exact distGet_init_start g startNode hs
  · intro v d hd
    obtain ⟨rfl, rfl⟩ := distGet_init_cases g startNode v d hd
    exact Or.inl rfl
  · intro v u hp
    rw [predGet_init] at hp
    cases hp
  · exact List.nodup_nil
  · intro v hv
    simp at hv
  · intro e he
    have he2 : e = (0, startNode) := by simpa using he
    rw [he2]
    exact hs
  · intro v c hvia
    obtain ⟨rfl, rfl⟩ := reachvia_nil g startNode v c hvia
    exact ⟨0, distGet_init_start g _ hs, le_refl 0⟩

theorem buildChain_spec (g : Graph) (startNode endNode : Node) (dist : DistMap)
    (preds : PredMap) (visited : List Node)
    (hpost : DijkPost g startNode endNode dist preds visited) :
    ∀ n : ℕ, ∀ v l1 l2, visited = l1 ++ v :: l2 → l2.length ≤ n →
    ∀ dv, distGet dist v = some dv → ∀ fuel, l2.length < fuel →
    ∃ chain, buildChain preds fuel v = some chain ∧ chain.head? = some v ∧
      chain.getLast? = some startNode ∧ SeqCost g chain.reverse dv := by
  intro n
  induction n with
  | zero =>
    intro v l1 l2 hsplit hlen dv hdv fuel hfuel
    have hl2 : l2 = [] := List.length_eq_zero.mp (Nat.le_zero.mp hlen)
    cases fuel with
    | zero => simp at hfuel
    | succ f =>
      cases hpred : predGet preds v with
      | none =>
        have hvs : v = startNode := by
          rcases hpost.pred_cover v dv hdv with h | ⟨u, hu⟩
          · exact h
          · rw [hpred] at hu
            cases hu
        have hdv0 : dv = 0 := by
          rw [hvs] at hdv
          rw [hpost.start_zero] at hdv
          exact (Option.some.inj hdv).symm
        refine ⟨[v], ?_, rfl, by rw [hvs]; rfl, ?_⟩
        · simp only [buildChain, hpred]
        · rw [hdv0]
          exact SeqCost.single v
      | some u =>
        obtain ⟨hu_vis, w, du, hedge, hdu, hdvw⟩ := hpost.pred_sound v u hpred
        have hv_vis : v ∈ visited := by
          rw [hsplit]
          exact List.mem_append.mpr (Or.inr (List.mem_cons_self _ _))
        rcases hpost.pred_order v u hpred with hnv | ⟨l1', l2', hsplit', hul2⟩
        · exact absurd hv_vis hnv
        · obtain ⟨_, hl2e⟩ := nodup_middle_unique
            (hsplit ▸ hpost.visited_nodup) (hsplit ▸ hsplit')
          rw [← hl2e, hl2] at hul2
          simp at hul2
  | succ n ih =>
    intro v l1 l2 hsplit hlen dv hdv fuel hfuel
    cases fuel with
    | zero => simp at hfuel
    | succ f =>
      cases hpred : predGet preds v with
      | none =>
        have hvs : v = startNode := by
          rcases hpost.pred_cover v dv hdv with h | ⟨u, hu⟩
          · exact h
          · rw [hpred] at hu
            cases hu
        have hdv0 : dv = 0 := by
          rw [hvs] at hdv
          rw [hpost.start_zero] at hdv
          exact (Option.some.inj hdv).symm
        refine ⟨[v], ?_, rfl, by rw [hvs]; rfl, ?_⟩
        · simp only [buildChain, hpred]
        · rw [hdv0]
          exact SeqCost.single v
      | some u =>
        obtain ⟨hu_vis, w, du, hedge, hdu, hdvw⟩ := hpost.pred_sound v u hpred
        have hv_vis : v ∈ visited := by
          rw [hsplit]
          exact List.mem_append.mpr (Or.inr (List.mem_cons_self _ _))
        rcases hpost.pred_order v u hpred with hnv | ⟨l1', l2', hsplit', hul2⟩
        · exact absurd hv_vis hnv
        · obtain ⟨hl1e, hl2e⟩ := nodup_middle_unique
            (hsplit ▸ hpost.visited_nodup) (hsplit ▸ hsplit')
          rw [← hl2e] at hul2
          obtain ⟨s2, t2, hl2split⟩ := List.append_of_mem hul2
          have hsplit_u : visited = (l1 ++ v :: s2) ++ u :: t2 := by
            rw [hsplit, hl2split]
            simp
          have hlen_u : t2.length ≤ n := by
            have : l2.length = s2.length + 1 + t2.length := by
              rw [hl2split]
              simp [List.length_append]
              ring
            omega
          have hfuel_u : t2.length < f := by
            have : l2.length = s2.length + 1 + t2.length := by
              rw [hl2split]
              simp [List.length_append]
              ring
            omega
          obtain ⟨chain_u, hcu, hcu_head, hcu_last, hcu_cost⟩ :=
            ih u (l1 ++ v :: s2) t2 hsplit_u hlen_u du hdu f hfuel_u
          have hdve : dv = du + w := by
            rw [hdvw] at hdv
            exact (Option.some.inj hdv).symm
          refine ⟨v :: chain_u, ?_, rfl, ?_, ?_⟩
          · simp only [buildChain, hpred, hcu, Option.map_some']
          · cases chain_u with
            | nil => simp at hcu_head
            | cons x rest =>
              rw [List.getLast?_cons_cons]
              exact hcu_last
          · have hrev_last : chain_u.reverse.getLast? = some u := by
              rw [List.getLast?_reverse]
              exact hcu_head
            have := seqcost_snoc hcu_cost hrev_last hedge
            rw [hdve]
            simpa using this

end TerraFly

namespace TerraFly

theorem dijkstra_end_chain (g : Graph) (s e : Node) (dist2 : DistMap)
    (preds2 : PredMap) (visited2 : List Node)
    (hpost : DijkPost g s e dist2 preds2 visited2) (u0 : Node)
    (hpred : predGet preds2 e = some u0) :
    ∃ dE chain, distGet dist2 e = some dE ∧
      buildChain preds2 ((graphNodes g).length + 1) e = some chain ∧
      chain.head? = some e ∧ chain.getLast? = some s ∧
      SeqCost g chain.reverse dE := by
  obtain ⟨hu0_vis, w0, du0, hedge0, hdu0, hdE⟩ := hpost.pred_sound e u0 hpred
  obtain ⟨s2, t2, hsplit⟩ := List.append_of_mem hu0_vis
  have hsub : visited2 ⊆ graphNodes g := fun x hx => hpost.visited_nodes x hx
  have hlen : visited2.length ≤ (graphNodes g).length :=
    (List.subperm_of_subset hpost.visited_nodup hsub).length_le
  have ht2 : t2.length < (graphNodes g).length := by
    rw [hsplit] at hlen
    simp [List.length_append] at hlen
    omega
  obtain ⟨chain_u, hcu, hh, hl, hc⟩ := buildChain_spec g s e dist2 preds2 visited2
    hpost t2.length u0 s2 t2 hsplit (le_refl _) du0 hdu0 ((graphNodes g).length) ht2
  refine ⟨du0 + w0, e :: chain_u, hdE, ?_, rfl, ?_, ?_⟩
  · simp only [buildChain, hpred, hcu, Option.map_some']
  · cases chain_u with
    | nil => simp at hh
    | cons x rest =>
      rw [List.getLast?_cons_cons]
      exact hl
  · have hrev_last : chain_u.reverse.getLast? = some u0 := by
      rw [List.getLast?_reverse]
      exact hh
    have := seqcost_snoc hc hrev_last hedge0
    simpa using this

theorem dijkstra_some_spec (g : Graph) (s e : Node) (hnn : NonnegGraph g)
    (hcl : ClosedGraph g) (hs : s ∈ graphNodes g) (he : e ∈ graphNodes g) :
    ∀ seq, dijkstra g s e = some seq →
      seq.head? = some s ∧ seq.getLast? = some e ∧
      ∃ c, SeqCost g seq c ∧ ∀ c2, Reach g s e c2 → c ≤ c2 := by
  obtain ⟨dist2, preds2, visited2, hloop, hpost⟩ :=
    dijkstraLoop_spec g s e hnn hcl _ _ _ _ (dijkstra_init_inv g s hs)
  intro seq hsome
  unfold dijkstra at hsome
  rw [if_pos ⟨hs, he⟩] at hsome
  simp only [hloop] at hsome
  cases hpred : predGet preds2 e with
  | none =>
    simp only [hpred] at hsome
    cases hsome
  | some u0 =>
    obtain ⟨dE, chain, hdE, hchain, hh, hl, hc⟩ :=
      dijkstra_end_chain g s e dist2 preds2 visited2 hpost u0 hpred
    simp only [hpred, hchain] at hsome
    have hseq : seq = chain.reverse := (Option.some.inj hsome).symm
    refine ⟨?_, ?_, dE, ?_, ?_⟩
    · rw [hseq, List.head?_reverse]
      exact hl
    · rw [hseq, List.getLast?_reverse]
      exact hh
    · rw [hseq]
      exact hc
    · intro c2 hc2
      obtain ⟨d3, hd3, hle3⟩ := hpost.end_min c2 hc2
      have hde : dE = d3 := by
        rw [hdE] at hd3
        exact Option.some.inj hd3
      rw [hde]
      exact hle3

theorem dijkstra_none_iff (g : Graph) (s e : Node) (hnn : NonnegGraph g)
    (hcl : ClosedGraph g) (hs : s ∈ graphNodes g) (he : e ∈ graphNodes g) :
    dijkstra g s e = none ↔ (s = e ∨ ¬ ∃ c, Reach g s e c) := by
  obtain ⟨dist2, preds2, visited2, hloop, hpost⟩ :=
    dijkstraLoop_spec g s e hnn hcl _ _ _ _ (dijkstra_init_inv g s hs)
  constructor
  · intro hnone
    by_cases hse : s = e
    · exact Or.inl hse
    · refine Or.inr ?_
      rintro ⟨c, hc⟩
      obtain ⟨dE, hdE, _⟩ := hpost.end_min c hc
      rcases hpost.pred_cover e dE hdE with h | ⟨u0, hu0⟩
      · exact hse h.symm
      · obtain ⟨dE2, chain, hdE2, hchain, _, _, _⟩ :=
          dijkstra_end_chain g s e dist2 preds2 visited2 hpost u0 hu0
        unfold dijkstra at hnone
        rw [if_pos ⟨hs, he⟩] at hnone
        simp only [hloop, hu0, hchain] at hnone
        cases hnone
  · intro h
    rcases h with rfl | hunreach
    · exact dijkstra_self g s hs
    · cases hd : dijkstra g s e with
      | none => rfl
      | some seq =>
        obtain ⟨hh, hl, c, hsc, _⟩ := dijkstra_some_spec g s e hnn hcl hs he seq hd
        exact absurd ⟨c, seqcost_to_reach hsc s e hh hl⟩ hunreach

end TerraFly

namespace TerraFly

theorem adjGet_graphEnsure (g : Graph) (n u : Node) :
    adjGet (graphEnsure g n) u = adjGet g u := by
  unfold graphEnsure
  by_cases h : g.any (fun e => decide (e.1 = n))
  · rw [if_pos h]
  · rw [if_neg h]
    unfold adjGet ndictLookup
    rw [List.find?_append]
    cases hf : g.find? (fun e => decide (e.1 = u)) with
    | some x => simp [hf]
    | none =>
      by_cases hun : u = n
      · have hfn : g.find? (fun e => decide (e.1 = n)) = none := by
          rw [List.find?_eq_none]
          intro e he
          intro hp
          exact absurd (List.any_eq_true.mpr ⟨e, he, hp⟩) h
        simp [hf, List.find?, hun]
      · have : ¬ n = u := fun hc => hun hc.symm
        simp [hf, List.find?, this]

theorem mem_graphNodes_graphEnsure (g : Graph) (n : Node) :
    n ∈ graphNodes (graphEnsure g n) := by
  unfold graphEnsure
  by_cases h : g.any (fun e => decide (e.1 = n))
  · rw [if_pos h]
    rcases List.any_eq_true.mp h with ⟨e, he, hp⟩
    have he1 : e.1 = n := by simpa using hp
    rw [← he1]
    exact List.mem_map.mpr ⟨e, he, rfl⟩
  · rw [if_neg h]
    unfold graphNodes
    simp

theorem graphNodes_graphEnsure_mono (g : Graph) (n v : Node) (h : v ∈ graphNodes g) :
    v ∈ graphNodes (graphEnsure g n) := by
  unfold graphEnsure
  by_cases ha : g.any (fun e => decide (e.1 = n))
  · rw [if_pos ha]
    exact h
  · rw [if_neg ha]
    unfold graphNodes at h ⊢
    rw [List.map_append]
    exact List.mem_append.mpr (Or.inl h)

theorem graphNodes_graphAppend (g : Graph) (n : Node) (entry : Node × ℚ × ℚ) :
    graphNodes (graphAppend g n entry) = graphNodes g := by
  unfold graphAppend graphNodes
  induction g with
  | nil => rfl
  | cons e rest ih =>
    by_cases he : e.1 = n
    · simpa [he] using ih
    · simpa [he] using ih

theorem adjGet_graphAppend_ne (g : Graph) (n u : Node) (entry : Node × ℚ × ℚ)
    (h : u ≠ n) : adjGet (graphAppend g n entry) u = adjGet g u := by
  unfold graphAppend adjGet ndictLookup
  induction g with
  | nil => rfl
  | cons e rest ih =>
    by_cases he : e.1 = n
    · have heu : ¬ e.1 = u := by
        rw [he]
        exact fun hc => h hc.symm
      rw [List.map_cons, if_pos he]
      rw [List.find?_cons_of_neg _ (by simpa using heu),
          List.find?_cons_of_neg _ (by simpa using heu)]
      exact ih
    · by_cases heu : e.1 = u
      · rw [List.map_cons, if_neg he]
        rw [List.find?_cons_of_pos _ (by simpa using heu),
            List.find?_cons_of_pos _ (by simpa using heu)]
      · rw [List.map_cons, if_neg he]
        rw [List.find?_cons_of_neg _ (by simpa using heu),
            List.find?_cons_of_neg _ (by simpa using heu)]
        exact ih

theorem adjGet_graphAppend_self (g : Graph) (n : Node) (entry : Node × ℚ × ℚ)
    (h : n ∈ graphNodes g) :
    adjGet (graphAppend g n entry) n = adjGet g n ++ [entry] := by
  unfold graphAppend adjGet ndictLookup
  induction g with
  | nil => simp [graphNodes] at h
  | cons e rest ih =>
    by_cases he : e.1 = n
    · rw [List.map_cons, if_pos he]
      rw [List.find?_cons_of_pos _ (by simpa using he),
          List.find?_cons_of_pos _ (by simpa using he)]
      simp
    · rw [List.map_cons, if_neg he]
      rw [List.find?_cons_of_neg _ (by simpa using he),
          List.find?_cons_of_neg _ (by simpa using he)]
      refine ih ?_
      unfold graphNodes at h ⊢
      rcases List.mem_map.mp h with ⟨x, hx, hx1⟩
      rcases List.mem_cons.mp hx with rfl | hx2
      · exact absurd hx1 he
      · exact List.mem_map.mpr ⟨x, hx2, hx1⟩

theorem adjGet_double_append_mem (g : Graph) (a b : Node) (ea eb : Node × ℚ × ℚ)
    (ha : a ∈ graphNodes g) (hb : b ∈ graphNodes g) (u : Node)
    (entry : Node × ℚ × ℚ)
    (h : entry ∈ adjGet (graphAppend (graphAppend g a ea) b eb) u) :
    entry ∈ adjGet g u ∨ (u = a ∧ entry = ea) ∨ (u = b ∧ entry = eb) := by
  by_cases hub : u = b
  · subst hub
    have hb2 : u ∈ graphNodes (graphAppend g a ea) := by
      rw [graphNodes_graphAppend]
      exact hb
    rw [adjGet_graphAppend_self _ _ _ hb2] at h
    rcases List.mem_append.mp h with h5 | h5
    · by_cases hua : u = a
      · subst hua
        rw [adjGet_graphAppend_self _ _ _ ha] at h5
        rcases List.mem_append.mp h5 with h6 | h6
        · exact Or.inl h6
        · exact Or.inr (Or.inl ⟨rfl, by simpa using h6⟩)
      · rw [adjGet_graphAppend_ne _ _ _ _ hua] at h5
        exact Or.inl h5
    · exact Or.inr (Or.inr ⟨rfl, by simpa using h5⟩)
  · rw [adjGet_graphAppend_ne _ _ _ _ hub] at h
    by_cases hua : u = a
    · subst hua
      rw [adjGet_graphAppend_self _ _ _ ha] at h
      rcases List.mem_append.mp h with h5 | h5
      · exact Or.inl h5
      · exact Or.inr (Or.inl ⟨rfl, by simpa using h5⟩)
    · rw [adjGet_graphAppend_ne _ _ _ _ hua] at h
      exact Or.inl h

theorem adjGet_buildGraphStep_mem (geoDist : Node → Node → ℚ) (ds : ℚ) (g : Graph)
    (road : Road) (u : Node) (entry : Node × ℚ × ℚ)
    (h : entry ∈ adjGet (buildGraphStep geoDist ds g road) u) :
    entry ∈ adjGet g u ∨
    (u = (road.start_lat, road.start_lon) ∧
      entry = ((road.end_lat, road.end_lon),
        calculate_edge_weight geoDist (road.start_lat, road.start_lon)
          (road.end_lat, road.end_lon) (road.speed_limit.getD ds),
        road.speed_limit.getD ds)) ∨
    (u = (road.end_lat, road.end_lon) ∧
      entry = ((road.start_lat, road.start_lon),
        calculate_edge_weight geoDist (road.start_lat, road.start_lon)
          (road.end_lat, road.end_lon) (road.speed_limit.getD ds),
        road.speed_limit.getD ds)) := by
  have hsn1 : (road.start_lat, road.start_lon) ∈
      graphNodes (graphEnsure (graphEnsure g (road.start_lat, road.start_lon))
        (road.end_lat, road.end_lon)) :=
    graphNodes_graphEnsure_mono _ _ _ (mem_graphNodes_graphEnsure g _)
  have hen1 : (road.end_lat, road.end_lon) ∈
      graphNodes (graphEnsure (graphEnsure g (road.start_lat, road.start_lon))
        (road.end_lat, road.end_lon)) :=
    mem_graphNodes_graphEnsure _ _
  have h4 : entry ∈ adjGet (graphAppend (graphAppend
      (graphEnsure (graphEnsure g (road.start_lat, road.start_lon))
        (road.end_lat, road.end_lon))
      (road.start_lat, road.start_lon)
      ((road.end_lat, road.end_lon),
        calculate_edge_weight geoDist (road.start_lat, road.start_lon)
          (road.end_lat, road.end_lon) (road.speed_limit.getD ds),
        road.speed_limit.getD ds))
      (road.end_lat, road.end_lon)
      ((road.start_lat, road.start_lon),
        calculate_edge_weight geoDist (road.start_lat, road.start_lon)
          (road.end_lat, road.end_lon) (road.speed_limit.getD ds),
        road.speed_limit.getD ds)) u := by
    simpa [buildGraphStep] using h
  rcases adjGet_double_append_mem _ _ _ _ _ hsn1 hen1 u entry h4 with h5 | h5 | h5
  · rw [adjGet_graphEnsure, adjGet_graphEnsure] at h5
    exact Or.inl h5
  · exact Or.inr (Or.inl h5)
  · exact Or.inr (Or.inr h5)

end TerraFly

namespace TerraFly

theorem graphNodes_buildGraphStep_mono (geoDist : Node → Node → ℚ) (ds : ℚ)
    (g : Graph) (road : Road) (v : Node) (h : v ∈ graphNodes g) :
    v ∈ graphNodes (buildGraphStep geoDist ds g road) := by
  simp only [buildGraphStep]
  rw [graphNodes_graphAppend, graphNodes_graphAppend]
  exact graphNodes_graphEnsure_mono _ _ _ (graphNodes_graphEnsure_mono _ _ _ h)

theorem start_mem_buildGraphStep (geoDist : Node → Node → ℚ) (ds : ℚ)
    (g : Graph) (road : Road) :
    (road.start_lat, road.start_lon) ∈ graphNodes (buildGraphStep geoDist ds g road) := by
  simp only [buildGraphStep]
  rw [graphNodes_graphAppend, graphNodes_graphAppend]
  exact graphNodes_graphEnsure_mono _ _ _ (mem_graphNodes_graphEnsure g _)

theorem end_mem_buildGraphStep (geoDist : Node → Node → ℚ) (ds : ℚ)
    (g : Graph) (road : Road) :
    (road.end_lat, road.end_lon) ∈ graphNodes (buildGraphStep geoDist ds g road) := by
  simp only [buildGraphStep]
  rw [graphNodes_graphAppend, graphNodes_graphAppend]
  exact mem_graphNodes_graphEnsure _ _

theorem buildGraph_edges (geoDist : Node → Node → ℚ) (ds : ℚ) (roads : List Road) :
    ∀ u entry, entry ∈ adjGet (buildGraph geoDist ds roads) u →
      ∃ road ∈ roads,
        entry.2.1 = calculate_edge_weight geoDist (road.start_lat, road.start_lon)
          (road.end_lat, road.end_lon) (road.speed_limit.getD ds) ∧
        entry.2.2 = road.speed_limit.getD ds ∧
        ((u = (road.start_lat, road.start_lon) ∧
            entry.1 = (road.end_lat, road.end_lon)) ∨
         (u = (road.end_lat, road.end_lon) ∧
            entry.1 = (road.start_lat, road.start_lon))) := by
  unfold buildGraph
  refine foldl_preserve (fun g => ∀ u entry, entry ∈ adjGet g u →
    ∃ road ∈ roads,
      entry.2.1 = calculate_edge_weight geoDist (road.start_lat, road.start_lon)
        (road.end_lat, road.end_lon) (road.speed_limit.getD ds) ∧
      entry.2.2 = road.speed_limit.getD ds ∧
      ((u = (road.start_lat, road.start_lon) ∧
          entry.1 = (road.end_lat, road.end_lon)) ∨
       (u = (road.end_lat, road.end_lon) ∧
          entry.1 = (road.start_lat, road.start_lon))))
    (buildGraphStep geoDist ds) roads [] ?_ ?_
  · intro u entry hmem
    simp [adjGet, ndictLookup] at hmem
  · intro g road hroad hP u entry hmem
    rcases adjGet_buildGraphStep_mem geoDist ds g road u entry hmem with h1 | ⟨h1, h2⟩ | ⟨h1, h2⟩
    · exact hP u entry h1
    · exact ⟨road, hroad, by rw [h2], by rw [h2], Or.inl ⟨h1, by rw [h2]⟩⟩
    · exact ⟨road, hroad, by rw [h2], by rw [h2], Or.inr ⟨h1, by rw [h2]⟩⟩

theorem buildGraph_closed (geoDist : Node → Node → ℚ) (ds : ℚ) (roads : List Road) :
    ClosedGraph (buildGraph geoDist ds roads) := by
  unfold buildGraph
  refine foldl_preserve ClosedGraph _ roads [] ?_ ?_
  · intro u entry hmem
    simp [adjGet, ndictLookup] at hmem
  · intro g road hroad hP u entry hmem
    rcases adjGet_buildGraphStep_mem geoDist ds g road u entry hmem with h1 | ⟨h1, h2⟩ | ⟨h1, h2⟩
    · exact graphNodes_buildGraphStep_mono geoDist ds g road _ (hP u entry h1)
    · rw [h2]
      exact end_mem_buildGraphStep geoDist ds g road
    · rw [h2]
      exact start_mem_buildGraphStep geoDist ds g road

theorem buildGraph_nonneg (geoDist : Node → Node → ℚ) (ds : ℚ) (roads : List Road)
    (hgd : ∀ p q, 0 ≤ geoDist p q)
    (hsl : ∀ road ∈ roads, 0 < road.speed_limit.getD ds) :
    NonnegGraph (buildGraph geoDist ds roads) := by
  intro u entry hmem
  obtain ⟨road, hroad, hw, _, _⟩ := buildGraph_edges geoDist ds roads u entry hmem
  rw [hw]
  unfold calculate_edge_weight
  exact div_nonneg (hgd _ _) (le_of_lt (hsl road hroad))

theorem find_nearest_node_spec (geoDist : Node → Node → ℚ) (p : Node) (g : Graph)
    (n : Node) (h : find_nearest_node geoDist p g = some n) :
    n ∈ graphNodes g ∧ ∀ y ∈ graphNodes g, geoDist p n ≤ geoDist p y :=
  ⟨pythonMinBy_mem _ _ _ h, pythonMinBy_le _ _ _ h⟩

end TerraFly

namespace TerraFly

theorem c7_nodes : graphNodes (buildGraph geoDistFlat 5 [roadAB]) =
    [((0 : ℚ), (0 : ℚ)), ((0 : ℚ), (1 : ℚ))] := by
  norm_num +decide [buildGraph, buildGraphStep, graphEnsure, graphAppend, graphNodes,
    geoDistFlat, roadAB, calculate_edge_weight, List.foldl, List.map, List.any_cons,
    Prod.ext_iff]

end TerraFly

namespace TerraFly

theorem c7_adj_origin : adjGet (buildGraph geoDistFlat 5 [roadAB]) (0, 0) =
    [(((0 : ℚ), (1 : ℚ)), (1 : ℚ)/5, (5 : ℚ))] := by
  norm_num +decide [buildGraph, buildGraphStep, graphEnsure, graphAppend, adjGet,
    ndictLookup, geoDistFlat, roadAB, calculate_edge_weight, List.foldl, List.map,
    List.any_cons, List.find?, Prod.ext_iff]

theorem c7_snap_start : find_nearest_node geoDistFlat (0, 0)
    (buildGraph geoDistFlat 5 [roadAB]) = some (0, 0) := by
  rw [find_nearest_node, c7_nodes]
  norm_num +decide [pythonMinBy, List.foldl, geoDistFlat, Prod.ext_iff]

theorem c7_snap_end : find_nearest_node geoDistFlat (0, 1)
    (buildGraph geoDistFlat 5 [roadAB]) = some (0, 1) := by
  rw [find_nearest_node, c7_nodes]
  norm_num +decide [pythonMinBy, List.foldl, geoDistFlat, Prod.ext_iff]

end TerraFly

namespace TerraFly

/-- C7 (amended): `_plan_road_path` builds a weighted graph whose edge
weights are `_calculate_edge_weight` values (haversine distance divided by
the road's speed limit, defaulting to the configured speed), snaps the
start and end points to nearest graph nodes (`_find_nearest_node` returns
a node of the graph minimizing the distance to the query point), and when
it returns a node sequence that sequence runs from the snapped start node
to the snapped end node with minimum total weight among all node walks
between them; it returns no path exactly when the snapped start and end
nodes COINCIDE or no walk connects them.  (The original claim's
characterisation "exactly when the snapped nodes lie in disconnected
components" is refuted by `C7_same_node_counterexample`: `_dijkstra`
breaks on popping the end node before recording any predecessor, and
`predecessors[end] is None` is then reported as no-path even though start
and end are the same connected node.)  Hypotheses: the distance function
is nonnegative (true of the haversine) and every road's effective speed
limit is positive (true of the defaults in `path_params`). -/
theorem C7_dijkstra_amended (geoDist : Node → Node → ℚ) (default_speed : ℚ)
    (roads : List Road) (startP endP s e : Node)
    (hgd : ∀ p q, 0 ≤ geoDist p q)
    (hsl : ∀ road ∈ roads, 0 < road.speed_limit.getD default_speed)
    (hs : find_nearest_node geoDist startP (buildGraph geoDist default_speed roads)
      = some s)
    (he : find_nearest_node geoDist endP (buildGraph geoDist default_speed roads)
      = some e) :
    (∀ u entry, entry ∈ adjGet (buildGraph geoDist default_speed roads) u →
      ∃ road ∈ roads,
        entry.2.1 = calculate_edge_weight geoDist (road.start_lat, road.start_lon)
          (road.end_lat, road.end_lon) (road.speed_limit.getD default_speed)) ∧
    (s ∈ graphNodes (buildGraph geoDist default_speed roads) ∧
      ∀ y ∈ graphNodes (buildGraph geoDist default_speed roads),
        geoDist startP s ≤ geoDist startP y) ∧
    (e ∈ graphNodes (buildGraph geoDist default_speed roads) ∧
      ∀ y ∈ graphNodes (buildGraph geoDist default_speed roads),
        geoDist endP e ≤ geoDist endP y) ∧
    (∀ seq, plan_road_path_nodes geoDist default_speed roads startP endP = some seq →
      seq.head? = some s ∧ seq.getLast? = some e ∧
      ∃ c, SeqCost (buildGraph geoDist default_speed roads) seq c ∧
        ∀ seq2 c2, SeqCost (buildGraph geoDist default_speed roads) seq2 c2 →
          seq2.head? = some s → seq2.getLast? = some e → c ≤ c2) ∧
    (plan_road_path_nodes geoDist default_speed roads startP endP = none ↔
      s = e ∨ ¬ ∃ c, Reach (buildGraph geoDist default_speed roads) s e c) := by
  have hnn : NonnegGraph (buildGraph geoDist default_speed roads) :=
    buildGraph_nonneg geoDist default_speed roads hgd hsl
  have hcl : ClosedGraph (buildGraph geoDist default_speed roads) :=
    buildGraph_closed geoDist default_speed roads
  have hsmem := find_nearest_node_spec geoDist startP _ s hs
  have hemem := find_nearest_node_spec geoDist endP _ e he
  have hplan : plan_road_path_nodes geoDist default_speed roads startP endP =
      dijkstra (buildGraph geoDist default_speed roads) s e := by
    unfold plan_road_path_nodes
    rw [hs, he]
  refine ⟨?_, hsmem, hemem, ?_, ?_⟩
  · intro u entry hmem
    obtain ⟨road, hroad, hw, _, _⟩ :=
      buildGraph_edges geoDist default_speed roads u entry hmem
    exact ⟨road, hroad, hw⟩
  · intro seq hseq
    rw [hplan] at hseq
    obtain ⟨hh, hl, c, hsc, hmin⟩ :=
      dijkstra_some_spec (buildGraph geoDist default_speed roads) s e hnn hcl
        hsmem.1 hemem.1 seq hseq
    refine ⟨hh, hl, c, hsc, ?_⟩
    intro seq2 c2 hsc2 hh2 hl2
    exact hmin c2 (seqcost_to_reach hsc2 s e hh2 hl2)
  · rw [hplan]
    exact dijkstra_none_iff (buildGraph geoDist default_speed roads) s e hnn hcl
      hsmem.1 hemem.1

end TerraFly

namespace TerraFly

/-- Witness for C7: the single-road network `roadAB` with the rational
stand-in distance `geoDistFlat`, start query `(0,0)` and end query
`(0,1)`, which snap to the two road endpoints; all four hypotheses of
`C7_dijkstra_amended` are discharged concretely. -/
theorem C7_dijkstra_amended_witness :
    (∀ u entry, entry ∈ adjGet (buildGraph geoDistFlat 5 [roadAB]) u →
      ∃ road ∈ [roadAB],
        entry.2.1 = calculate_edge_weight geoDistFlat
          (road.start_lat, road.start_lon)
          (road.end_lat, road.end_lon) (road.speed_limit.getD 5)) ∧
    (((0 : ℚ), (0 : ℚ)) ∈ graphNodes (buildGraph geoDistFlat 5 [roadAB]) ∧
      ∀ y ∈ graphNodes (buildGraph geoDistFlat 5 [roadAB]),
        geoDistFlat (0, 0) (0, 0) ≤ geoDistFlat (0, 0) y) ∧
    (((0 : ℚ), (1 : ℚ)) ∈ graphNodes (buildGraph geoDistFlat 5 [roadAB]) ∧
      ∀ y ∈ graphNodes (buildGraph geoDistFlat 5 [roadAB]),
        geoDistFlat (0, 1) (0, 1) ≤ geoDistFlat (0, 1) y) ∧
    (∀ seq, plan_road_path_nodes geoDistFlat 5 [roadAB] (0, 0) (0, 1) = some seq →
      seq.head? = some (0, 0) ∧ seq.getLast? = some (0, 1) ∧
      ∃ c, SeqCost (buildGraph geoDistFlat 5 [roadAB]) seq c ∧
        ∀ seq2 c2, SeqCost (buildGraph geoDistFlat 5 [roadAB]) seq2 c2 →
          seq2.head? = some (0, 0) → seq2.getLast? = some (0, 1) → c ≤ c2) ∧
    (plan_road_path_nodes geoDistFlat 5 [roadAB] (0, 0) (0, 1) = none ↔
      ((0 : ℚ), (0 : ℚ)) = ((0 : ℚ), (1 : ℚ)) ∨
        ¬ ∃ c, Reach (buildGraph geoDistFlat 5 [roadAB]) (0, 0) (0, 1) c) :=
  C7_dijkstra_amended geoDistFlat 5 [roadAB] (0, 0) (0, 1) (0, 0) (0, 1)
    (fun p q => by unfold geoDistFlat; positivity)
    (by
      intro road hroad
      have hr : road = roadAB := by simpa using hroad
      rw [hr]
      norm_num [roadAB])
    c7_snap_start c7_snap_end

/-- Counterexample to C7 as stated: with the single road from `(0,0)` to
`(0,1)` and both query points at the origin, both endpoints snap to the
same graph node `(0,0)`, which trivially reaches itself (and the graph is
connected: it has an edge out of `(0,0)`), yet `_plan_road_path` returns
no path — so "no path exactly when the snapped nodes lie in disconnected
components" is false; the missing case is snapped start = snapped end. -/
theorem C7_same_node_counterexample :
    plan_road_path_nodes geoDistFlat 5 [roadAB] (0, 0) (0, 0) = none ∧
    find_nearest_node geoDistFlat (0, 0) (buildGraph geoDistFlat 5 [roadAB])
      = some (0, 0) ∧
    Reach (buildGraph geoDistFlat 5 [roadAB]) (0, 0) (0, 0) 0 ∧
    EdgeTo (buildGraph geoDistFlat 5 [roadAB]) (0, 0) (0, 1) (1/5) := by
  have hmem : ((0 : ℚ), (0 : ℚ)) ∈ graphNodes (buildGraph geoDistFlat 5 [roadAB]) := by
    rw [c7_nodes]
    simp
  refine ⟨?_, c7_snap_start, Reach.refl, ?_⟩
  · have hplan : plan_road_path_nodes geoDistFlat 5 [roadAB] (0, 0) (0, 0) =
        dijkstra (buildGraph geoDistFlat 5 [roadAB]) (0, 0) (0, 0) := by
      unfold plan_road_path_nodes
      rw [c7_snap_start]
    rw [hplan]
    exact dijkstra_self _ _ hmem
  · refine ⟨5, ?_⟩
    rw [c7_adj_origin]
    simp

end TerraFly
